import Mathlib

/-!
Shallow embedding of the LWFFL draft-metrics module (draft-metrics.mjs):
normalization, cohort ranking, metric enrichment and grouped summarization.
JS numbers are modelled as rationals (every value the engine keeps passes a
finiteness check, so `ℚ` is the faithful codomain); JS `null`/`undefined`
results are modelled with `Option`; source records are association lists of
string keys to scalar values (JS object literals have unique keys, so
first-match lookup agrees with object property access).
-/

/-- Model of a scalar JS value as found in a source record. -/
inductive JSVal where
  | num (q : ℚ)
  | str (s : String)
  | bool (b : Bool)
  | null
  | undefined
deriving DecidableEq

/-- A source record: an open mapping from field names to values. -/
abbrev Row := List (String × JSVal)

/-- Property access `row[k]` combined with `hasOwnProperty`: `none` means the
key is absent from the object. -/
def lookupKey (row : Row) (k : String) : Option JSVal :=
  row.lookup k

def MANAGER_FIELD_CANDIDATES : List String :=
  ["manager", "owner", "teamOwner", "team_owner", "gm"]

def FINISH_RANK_FIELD_CANDIDATES : List String :=
  ["positionrank", "position rank", "positionRank"]

def PLAYER_FIELD_CANDIDATES : List String :=
  ["player", "name"]

def PRICE_FIELD_CANDIDATES : List String :=
  ["price", "auctionPrice", "auction_price", "cost"]

/-- JS `String.prototype.trim`, written over the character list so concrete
instances reduce. -/
def jsTrim (s : String) : String :=
  String.mk (((s.data.dropWhile (·.isWhitespace)).reverse.dropWhile (·.isWhitespace)).reverse)

/-- JS `String.prototype.toUpperCase` (the position synonyms are ASCII). -/
def jsToUpper (s : String) : String :=
  String.mk (s.data.map Char.toUpper)

/-- `isNilOrBlank` from the source: null, undefined, or a blank string.
`none` is the value of an absent field (JS `undefined`). -/
def isNilOrBlank (v : Option JSVal) : Bool :=
  match v with
  | none => true
  | some .null => true
  | some .undefined => true
  | some (.str s) => jsTrim s = ""
  | some _ => false

def digitsToNat (cs : List Char) : ℕ :=
  cs.foldl (fun a c => a * 10 + (c.toNat - 48)) 0

/-- Decimal forms `digits`, `digits.digits`, `.digits`, `digits.` as a
rational. Returns `none` on anything else. -/
def decimalToRat (cs : List Char) : Option ℚ :=
  let intPart := cs.takeWhile (·.isDigit)
  let rest := cs.dropWhile (·.isDigit)
  match rest with
  | [] => if intPart.isEmpty then none else some (digitsToNat intPart : ℚ)
  | '.' :: frac =>
      if frac.all (·.isDigit) && !(intPart.isEmpty && frac.isEmpty) then
        some ((digitsToNat intPart : ℚ) + (digitsToNat frac : ℚ) / ((10 : ℚ) ^ frac.length))
      else none
  | _ => none

/-- Model of JS `Number(string)` restricted to plain signed decimal literals;
exotic forms (hex, exponents, `Infinity`) conservatively fail to parse, which
only widens the set of values the engine treats as absent. -/
def jsStringToNumber (s : String) : Option ℚ :=
  match (jsTrim s).data with
  | '+' :: cs => decimalToRat cs
  | '-' :: cs => (decimalToRat cs).map (fun q => -q)
  | cs => decimalToRat cs

/-- `toFiniteNumber` from the source: finite numbers pass through, non-blank
strings are parsed, everything else is absent. Non-finite JS numbers are
outside the `ℚ` codomain, matching the `Number.isFinite` filter. -/
def toFiniteNumber (v : Option JSVal) : Option ℚ :=
  match v with
  | some (.num q) => some q
  | some (.str s) => if jsTrim s = "" then none else jsStringToNumber s
  | _ => none

/-- `firstPresentValue`: the value of the first candidate key present on the
record. A key present with value `undefined` is returned as `some .undefined`,
which every caller treats exactly like an absent field, as in JS. -/
def firstPresentValue (row : Row) (candidates : List String) : Option JSVal :=
  candidates.findSome? (fun k => lookupKey row k)

/-- Normalized position: the closed six-way enumeration. -/
inductive Pos where
  | QB | RB | WR | TE | K | DST
deriving DecidableEq

/-- `normalizePosition`: trim/upper-case the string form and match synonyms;
anything unrecognized is DST. Non-string values stringify to text that never
matches a synonym, so they also land on the DST fallback. -/
def normalizePosition (position : Option JSVal) : Pos :=
  match position with
  | some (.str s) =>
      let raw := jsToUpper (jsTrim s)
      if raw = "D/ST" ∨ raw = "DST" ∨ raw = "DEF" ∨ raw = "D" then .DST
      else if raw = "K" ∨ raw = "PK" then .K
      else if raw = "QB" then .QB
      else if raw = "RB" then .RB
      else if raw = "WR" then .WR
      else if raw = "TE" then .TE
      else .DST
  | _ => .DST

/-- `parseFinishRank`: numeric parse of the first finish-rank candidate;
values ≤ 0 (and parse failures) are absent, surviving values are floored. -/
def parseFinishRank (row : Row) : Option ℤ :=
  match toFiniteNumber (firstPresentValue row FINISH_RANK_FIELD_CANDIDATES) with
  | none => none
  | some q => if q ≤ 0 then none else some ⌊q⌋

/-- JS `String(v)` for the scalar values of the model. Number formatting is
approximated (integer-valued rationals print as integers); no verified
property depends on the text of a stringified number. -/
def jsToString (v : JSVal) : String :=
  match v with
  | .str s => s
  | .num q => if q.den = 1 then toString q.num else toString q
  | .bool b => if b then "true" else "false"
  | .null => "null"
  | .undefined => "undefined"

/-- `detectManagerValue`: first manager-ish field, trimmed, with fallback. -/
def detectManagerValue (row : Row) : String :=
  let raw := firstPresentValue row MANAGER_FIELD_CANDIDATES
  if isNilOrBlank raw then "Unknown Manager"
  else jsTrim (jsToString (raw.getD .undefined))

/-- `detectPlayerValue`: first player-ish field, trimmed, with fallback. -/
def detectPlayerValue (row : Row) : String :=
  let raw := firstPresentValue row PLAYER_FIELD_CANDIDATES
  if isNilOrBlank raw then "Unknown Player"
  else jsTrim (jsToString (raw.getD .undefined))

/-- `parseAuctionPrice`: numeric parse of the first price candidate; negative
values (and parse failures) are absent. -/
def parseAuctionPrice (row : Row) : Option ℚ :=
  match toFiniteNumber (firstPresentValue row PRICE_FIELD_CANDIDATES) with
  | some q => if 0 ≤ q then some q else none
  | none => none

/-- The analysis-ready shape produced by `normalizeEntries`. The JS object
carries the bookkeeping fields as `__sourceIndex`, `__analysisYear`,
`__analysisOverall` next to the spread source fields, which are kept in
`row`. -/
structure NormRow where
  row : Row
  sourceIndex : ℕ
  analysisYear : Option ℤ
  analysisOverall : Option ℚ
  normalizedPosition : Pos
  isDefenseOrKicker : Bool
  managerValue : String
  playerValue : String
  finishRank : Option ℤ
  auctionPrice : Option ℚ
deriving DecidableEq

/-- Body of the `normalizeEntries` mapping for one row at one source index. -/
def normalizeRow (sourceIndex : ℕ) (row : Row) : NormRow :=
  let normalizedPosition := normalizePosition (lookupKey row "position")
  let overall := toFiniteNumber (lookupKey row "overall")
  let year := toFiniteNumber (lookupKey row "year")
  { row := row
    sourceIndex := sourceIndex
    analysisYear := year.map (fun q => ⌊q⌋)
    analysisOverall := overall
    normalizedPosition := normalizedPosition
    isDefenseOrKicker := decide (normalizedPosition = .DST) || decide (normalizedPosition = .K)
    managerValue := detectManagerValue row
    playerValue := detectPlayerValue row
    finishRank := parseFinishRank row
    auctionPrice := parseAuctionPrice row }

/-- `sourceEntries.map((row, sourceIndex) => ...)` unrolled with an explicit
running index. -/
def normalizeEntriesFrom (sourceIndex : ℕ) : List Row → List NormRow
  | [] => []
  | row :: rest => normalizeRow sourceIndex row :: normalizeEntriesFrom (sourceIndex + 1) rest

/-- `normalizeEntries` from the source. -/
def normalizeEntries (sourceEntries : List Row) : List NormRow :=
  normalizeEntriesFrom 0 sourceEntries

/-- `percentileFromRank` from the source, on possibly-null inputs. -/
def percentileFromRank (rank : Option ℚ) (poolSize : Option ℚ) : Option ℚ :=
  match rank, poolSize with
  | some r, some p =>
      if p ≤ 0 then none
      else if p = 1 then some 1
      else some ((p - r) / (p - 1))
  | _, _ => none

/-- The cohort key `${__analysisYear ?? 'unknown'}__${normalizedPosition}`.
The string encoding is injective in the pair (no floored year prints as
"unknown" or contains "__"), so the pair is the faithful key. -/
def cohortKey (r : NormRow) : Option ℤ × Pos :=
  (r.analysisYear, r.normalizedPosition)

/-- The draft-order comparator as a boolean "comparator ≤ 0" relation: absent
overall pick sorts last, ties broken by source index ascending. The JS sort
is guaranteed stable and this relation is total and antisymmetric on distinct
source indexes, so the sorted permutation is unique and `mergeSort` computes
it. -/
def draftLE (a b : NormRow) : Bool :=
  match a.analysisOverall, b.analysisOverall with
  | none, none => decide (a.sourceIndex ≤ b.sourceIndex)
  | none, some _ => false
  | some _, none => true
  | some ao, some bo =>
      if ao = bo then decide (a.sourceIndex ≤ b.sourceIndex) else decide (ao < bo)

/-- The price-order comparator as a boolean relation: auction price
descending, ties broken by source index ascending. Only rows with a known
price enter this ordering, so the `getD 0` default is never exercised. -/
def priceLE (a b : NormRow) : Bool :=
  if a.auctionPrice = b.auctionPrice then decide (a.sourceIndex ≤ b.sourceIndex)
  else decide ((b.auctionPrice.getD 0) < (a.auctionPrice.getD 0))

/-- The rows of the cohort of key `k`, in input order. -/
def cohortOf (rows : List NormRow) (k : Option ℤ × Pos) : List NormRow :=
  rows.filter (fun r => decide (cohortKey r = k))

/-- `withPositionDraftOrder`: per cohort, sort by the draft comparator and
record `(sourceIndex, order, count)` with 1-based order. The JS builds a
`Map` keyed by source index; source indexes are pairwise distinct for any
normalized sequence, so an association list looked up by first match is the
same mapping. -/
def withPositionDraftOrder (normalizedRows : List NormRow) : List (ℕ × ℕ × ℕ) :=
  ((normalizedRows.map cohortKey).dedup).flatMap (fun k =>
    let grp := cohortOf normalizedRows k
    let sorted := grp.mergeSort draftLE
    sorted.enum.map (fun p => (p.2.sourceIndex, p.1 + 1, grp.length)))

/-- `withPositionPriceOrder`: like the draft order, over the priced rows of
each cohort, sorted by price descending. -/
def withPositionPriceOrder (normalizedRows : List NormRow) : List (ℕ × ℕ × ℕ) :=
  ((normalizedRows.map cohortKey).dedup).flatMap (fun k =>
    let grp := (cohortOf normalizedRows k).filter (fun r => r.auctionPrice.isSome)
    let sorted := grp.mergeSort priceLE
    sorted.enum.map (fun p => (p.2.sourceIndex, p.1 + 1, grp.length)))

/-- `median` from the source: sort ascending, middle element or mean of the
two middle elements. The `getD 0` defaults are always in range. -/
def median (values : List ℚ) : Option ℚ :=
  match values with
  | [] => none
  | _ =>
      let sorted := values.mergeSort (fun a b => decide (a ≤ b))
      let mid := sorted.length / 2
      if sorted.length % 2 ≠ 0 then some (sorted.getD mid 0)
      else some ((sorted.getD (mid - 1) 0 + sorted.getD mid 0) / 2)

/-- `average` from the source. -/
def average (values : List ℚ) : Option ℚ :=
  match values with
  | [] => none
  | _ => some (values.foldl (fun sum v => sum + v) 0 / (values.length : ℚ))

/-- The `finishPoolStrategy` option. -/
inductive FinishPoolStrategy where
  | draftCount
  | cap
deriving DecidableEq

/-- A fully-resolved metric configuration. The JS merges a partial config
over the defaults field by field; the model takes the merged result. -/
structure MetricConfig where
  positionCaps : Pos → Option ℚ
  finishPoolStrategy : FinishPoolStrategy

/-- `DEFAULT_POSITION_CAPS` from the source. -/
def DEFAULT_POSITION_CAPS : Pos → Option ℚ
  | .QB => some 24
  | .RB => some 60
  | .WR => some 60
  | .TE => some 30
  | .K => none
  | .DST => none

/-- `defaultMetricConfig` from the source. -/
def defaultMetricConfig : MetricConfig :=
  { positionCaps := DEFAULT_POSITION_CAPS
    finishPoolStrategy := .draftCount }

/-- The categorical outcome tier (a closed string enumeration in JS). -/
inductive Tier where
  | excluded | unranked | win | loss | neutral
deriving DecidableEq

/-- The enriched record returned by `enrichDraftEntries`. `row` carries the
spread source fields (`...sourcePreserved`); the remaining fields are the
explicitly listed properties of the returned object literal, which are
written after the spread and therefore win on any name collision. -/
structure EnrichedRow where
  row : Row
  managerValue : String
  playerValue : String
  isDefenseOrKicker : Bool
  normalizedPosition : Pos
  isRankEligible : Bool
  posDraftOrder : Option ℕ
  posDraftCount : Option ℕ
  auctionPrice : Option ℚ
  posPriceOrder : Option ℕ
  posPriceCount : Option ℕ
  finishRank : Option ℤ
  imputedFinishRank : Option ℚ
  effectiveFinishRank : Option ℚ
  cappedFinishRank : Option ℚ
  posRankDelta : Option ℚ
  cappedPosRankDelta : Option ℚ
  priceVsFinishDelta : Option ℚ
  valueRatio : Option ℚ
  cappedValueRatio : Option ℚ
  draftPercentileWithinPos : Option ℚ
  finishPercentileWithinPos : Option ℚ
  percentileDelta : Option ℚ
  beatCost : Bool
  metCost : Bool
  missedCost : Bool
  hitTier : Tier
deriving DecidableEq

/-- Body of the `enrichDraftEntries` mapping for one normalized row, given
the two cohort-rank tables. JS arithmetic on a `null` operand coerces it to
0, which the `getD 0` defaults reproduce; strict equality `===` against
`null` is false, which the explicit `isSome` conjunct in `metCost`
reproduces. (Both corners are unreachable: the order tables are total.) -/
def enrichRow (cfg : MetricConfig) (draftOrderMeta priceOrderMeta : List (ℕ × ℕ × ℕ))
    (r : NormRow) : EnrichedRow :=
  let orderMeta := draftOrderMeta.lookup r.sourceIndex
  let auctionMeta := priceOrderMeta.lookup r.sourceIndex
  let posDraftOrder := orderMeta.map Prod.fst
  let posDraftCount := orderMeta.map Prod.snd
  let posPriceOrder := auctionMeta.map Prod.fst
  let posPriceCount := auctionMeta.map Prod.snd
  let finishRank := r.finishRank
  let cap := cfg.positionCaps r.normalizedPosition
  let isDefenseOrKicker := r.isDefenseOrKicker
  let finishPoolSize : Option ℚ :=
    if cfg.finishPoolStrategy = .cap ∧ cap.isSome then cap
    else Option.map (fun n => ((n : ℕ) : ℚ)) posDraftCount
  let imputedFinishRank : Option ℚ :=
    if !isDefenseOrKicker && finishRank.isNone && finishPoolSize.isSome
    then finishPoolSize else none
  let effectiveFinishRank : Option ℚ :=
    match finishRank with
    | some n => some (n : ℚ)
    | none => imputedFinishRank
  let cappedFinishRank : Option ℚ :=
    match effectiveFinishRank, cap with
    | some e, some c => some (min e c)
    | _, _ => none
  let isRankEligible := !isDefenseOrKicker && effectiveFinishRank.isSome
  let draftPercentileWithinPos :=
    if !isDefenseOrKicker then
      percentileFromRank (Option.map (fun n => ((n : ℕ) : ℚ)) posDraftOrder)
        (Option.map (fun n => ((n : ℕ) : ℚ)) posDraftCount)
    else none
  let finishPercentileWithinPos :=
    if isRankEligible then percentileFromRank effectiveFinishRank finishPoolSize else none
  let percentileDelta :=
    match draftPercentileWithinPos, finishPercentileWithinPos with
    | some d, some f => some (f - d)
    | _, _ => none
  let ordQ : ℚ := ((posDraftOrder.getD 0 : ℕ) : ℚ)
  let effQ : ℚ := effectiveFinishRank.getD 0
  let posRankDelta := if isRankEligible then some (ordQ - effQ) else none
  let cappedPosRankDelta :=
    if isRankEligible && cappedFinishRank.isSome
    then some (ordQ - cappedFinishRank.getD 0) else none
  let priceVsFinishDelta :=
    if isRankEligible && posPriceOrder.isSome
    then some (((posPriceOrder.getD 0 : ℕ) : ℚ) - effQ) else none
  let valueRatio := if isRankEligible then some (ordQ / effQ) else none
  let cappedValueRatio :=
    if isRankEligible && cappedFinishRank.isSome
    then some (ordQ / cappedFinishRank.getD 0) else none
  let beatCost := isRankEligible && decide (effQ < ordQ)
  let metCost := isRankEligible && posDraftOrder.isSome && decide (effQ = ordQ)
  let missedCost := isRankEligible && decide (ordQ < effQ)
  let hitTier : Tier :=
    if isDefenseOrKicker then .excluded
    else if !isRankEligible then .unranked
    else if beatCost then .win
    else if missedCost then .loss
    else .neutral
  { row := r.row
    managerValue := r.managerValue
    playerValue := r.playerValue
    isDefenseOrKicker := isDefenseOrKicker
    normalizedPosition := r.normalizedPosition
    isRankEligible := isRankEligible
    posDraftOrder := posDraftOrder
    posDraftCount := posDraftCount
    auctionPrice := r.auctionPrice
    posPriceOrder := posPriceOrder
    posPriceCount := posPriceCount
    finishRank := finishRank
    imputedFinishRank := imputedFinishRank
    effectiveFinishRank := effectiveFinishRank
    cappedFinishRank := cappedFinishRank
    posRankDelta := posRankDelta
    cappedPosRankDelta := cappedPosRankDelta
    priceVsFinishDelta := priceVsFinishDelta
    valueRatio := valueRatio
    cappedValueRatio := cappedValueRatio
    draftPercentileWithinPos := draftPercentileWithinPos
    finishPercentileWithinPos := finishPercentileWithinPos
    percentileDelta := percentileDelta
    beatCost := beatCost
    metCost := metCost
    missedCost := missedCost
    hitTier := hitTier }

/-- `enrichDraftEntries`: the primary enrichment pipeline. -/
def enrichDraftEntries (sourceEntries : List Row)
    (config : MetricConfig := defaultMetricConfig) : List EnrichedRow :=
  let normalized := normalizeEntries sourceEntries
  let draftOrderMeta := withPositionDraftOrder normalized
  let priceOrderMeta := withPositionPriceOrder normalized
  normalized.map (enrichRow config draftOrderMeta priceOrderMeta)

/-- A group summary produced by the aggregator. -/
structure GroupSummary where
  totalPicks : ℕ
  eligiblePicks : ℕ
  excludedPicks : ℕ
  unrankedPicks : ℕ
  beatCostRate : Option ℚ
  metOrBeatCostRate : Option ℚ
  avgPosRankDelta : Option ℚ
  medianPosRankDelta : Option ℚ
  avgCappedPosRankDelta : Option ℚ
  avgPercentileDelta : Option ℚ
  avgCappedValueRatio : Option ℚ
deriving DecidableEq

/-- `summarizeGroup` from the source. The `eligiblePicks ? x : null` JS
conditionals become explicit zero tests. -/
def summarizeGroup (rows : List EnrichedRow) : GroupSummary :=
  let totalPicks := rows.length
  let excludedPicks := (rows.filter (fun r => r.isDefenseOrKicker)).length
  let eligibleRows := rows.filter (fun r => r.isRankEligible)
  let eligiblePicks := eligibleRows.length
  let unrankedPicks := (rows.filter (fun r => !r.isDefenseOrKicker && !r.isRankEligible)).length
  let beatCount := (eligibleRows.filter (fun r => r.beatCost)).length
  let metCount := (eligibleRows.filter (fun r => r.metCost)).length
  let deltas := (eligibleRows.map (fun r => r.posRankDelta)).filterMap id
  let cappedDeltas := (eligibleRows.map (fun r => r.cappedPosRankDelta)).filterMap id
  let percentiles := (eligibleRows.map (fun r => r.percentileDelta)).filterMap id
  let cappedRatios := (eligibleRows.map (fun r => r.cappedValueRatio)).filterMap id
  { totalPicks := totalPicks
    eligiblePicks := eligiblePicks
    excludedPicks := excludedPicks
    unrankedPicks := unrankedPicks
    beatCostRate :=
      if eligiblePicks = 0 then none else some ((beatCount : ℚ) / (eligiblePicks : ℚ))
    metOrBeatCostRate :=
      if eligiblePicks = 0 then none
      else some ((((beatCount + metCount : ℕ)) : ℚ) / (eligiblePicks : ℚ))
    avgPosRankDelta := average deltas
    medianPosRankDelta := median deltas
    avgCappedPosRankDelta := average cappedDeltas
    avgPercentileDelta := average percentiles
    avgCappedValueRatio := average cappedRatios }

/-- String form of a tier, as carried by the JS `hitTier` field. -/
def tierString : Tier → String
  | .excluded => "excluded"
  | .unranked => "unranked"
  | .win => "win"
  | .loss => "loss"
  | .neutral => "neutral"

/-- String form of a normalized position. -/
def posString : Pos → String
  | .QB => "QB"
  | .RB => "RB"
  | .WR => "WR"
  | .TE => "TE"
  | .K => "K"
  | .DST => "DST"

/-- JS encoding of an optional count: a number, or literal `null`. -/
def jsOfOptNat (v : Option ℕ) : JSVal :=
  match v with
  | some n => .num (n : ℚ)
  | none => .null

/-- JS encoding of an optional integer: a number, or literal `null`. -/
def jsOfOptInt (v : Option ℤ) : JSVal :=
  match v with
  | some n => .num (n : ℚ)
  | none => .null

/-- JS encoding of an optional rational: a number, or literal `null`. -/
def jsOfOptRat (v : Option ℚ) : JSVal :=
  match v with
  | some q => .num q
  | none => .null

/-- The property names explicitly written in the object literal returned by
`enrichDraftEntries` (they follow the `...sourcePreserved` spread, so they
override any source field of the same name). -/
def enrichedFieldNames : List String :=
  ["managerValue", "playerValue", "isDefenseOrKicker", "normalizedPosition",
   "isRankEligible", "posDraftOrder", "posDraftCount", "auctionPrice",
   "posPriceOrder", "posPriceCount", "finishRank", "imputedFinishRank",
   "effectiveFinishRank", "cappedFinishRank", "posRankDelta",
   "cappedPosRankDelta", "priceVsFinishDelta", "valueRatio",
   "cappedValueRatio", "draftPercentileWithinPos",
   "finishPercentileWithinPos", "percentileDelta", "beatCost", "metCost",
   "missedCost", "hitTier"]

/-- The bookkeeping names destructured out of the normalized row and hence
absent from the returned object. -/
def droppedFieldNames : List String :=
  ["__sourceIndex", "__analysisYear", "__analysisOverall"]

/-- The value of an explicitly written output property, by name. -/
def enrichedFieldValue (e : EnrichedRow) (k : String) : JSVal :=
  if k = "managerValue" then .str e.managerValue
  else if k = "playerValue" then .str e.playerValue
  else if k = "isDefenseOrKicker" then .bool e.isDefenseOrKicker
  else if k = "normalizedPosition" then .str (posString e.normalizedPosition)
  else if k = "isRankEligible" then .bool e.isRankEligible
  else if k = "posDraftOrder" then jsOfOptNat e.posDraftOrder
  else if k = "posDraftCount" then jsOfOptNat e.posDraftCount
  else if k = "auctionPrice" then jsOfOptRat e.auctionPrice
  else if k = "posPriceOrder" then jsOfOptNat e.posPriceOrder
  else if k = "posPriceCount" then jsOfOptNat e.posPriceCount
  else if k = "finishRank" then jsOfOptInt e.finishRank
  else if k = "imputedFinishRank" then jsOfOptRat e.imputedFinishRank
  else if k = "effectiveFinishRank" then jsOfOptRat e.effectiveFinishRank
  else if k = "cappedFinishRank" then jsOfOptRat e.cappedFinishRank
  else if k = "posRankDelta" then jsOfOptRat e.posRankDelta
  else if k = "cappedPosRankDelta" then jsOfOptRat e.cappedPosRankDelta
  else if k = "priceVsFinishDelta" then jsOfOptRat e.priceVsFinishDelta
  else if k = "valueRatio" then jsOfOptRat e.valueRatio
  else if k = "cappedValueRatio" then jsOfOptRat e.cappedValueRatio
  else if k = "draftPercentileWithinPos" then jsOfOptRat e.draftPercentileWithinPos
  else if k = "finishPercentileWithinPos" then jsOfOptRat e.finishPercentileWithinPos
  else if k = "percentileDelta" then jsOfOptRat e.percentileDelta
  else if k = "beatCost" then .bool e.beatCost
  else if k = "metCost" then .bool e.metCost
  else if k = "missedCost" then .bool e.missedCost
  else if k = "hitTier" then .str (tierString e.hitTier)
  else .undefined

/-- Property lookup on the returned enriched object, encoding the object
literal `{ ...sourcePreserved, managerValue, playerValue, ...derived }`:
explicitly written properties win, the three destructured bookkeeping names
are gone, and every other name falls through to the spread source fields. -/
def enrichedLookup (e : EnrichedRow) (k : String) : Option JSVal :=
  if k ∈ enrichedFieldNames then some (enrichedFieldValue e k)
  else if k ∈ droppedFieldNames then none
  else lookupKey e.row k

theorem enrichRow_row (cfg : MetricConfig) (m1 m2 : List (ℕ × ℕ × ℕ)) (r : NormRow) :
    (enrichRow cfg m1 m2 r).row = r.row := rfl

theorem enrichRow_managerValue (cfg : MetricConfig) (m1 m2 : List (ℕ × ℕ × ℕ)) (r : NormRow) :
    (enrichRow cfg m1 m2 r).managerValue = r.managerValue := rfl

theorem enrichRow_finishRank (cfg : MetricConfig) (m1 m2 : List (ℕ × ℕ × ℕ)) (r : NormRow) :
    (enrichRow cfg m1 m2 r).finishRank = r.finishRank := rfl

theorem enrichRow_posDraftOrder (cfg : MetricConfig) (m1 m2 : List (ℕ × ℕ × ℕ)) (r : NormRow) :
    (enrichRow cfg m1 m2 r).posDraftOrder = (m1.lookup r.sourceIndex).map Prod.fst := rfl

theorem length_normalizeEntriesFrom (i : ℕ) (src : List Row) :
    (normalizeEntriesFrom i src).length = src.length := by
  induction src generalizing i with
  | nil => rfl
  | cons row rest ih => simp [normalizeEntriesFrom, ih]

theorem sourceIndex_normalizeRow (i : ℕ) (row : Row) :
    (normalizeRow i row).sourceIndex = i := rfl

theorem map_sourceIndex_normalizeEntriesFrom (i : ℕ) (src : List Row) :
    (normalizeEntriesFrom i src).map (fun r => r.sourceIndex) = List.range' i src.length := by
  induction src generalizing i with
  | nil => rfl
  | cons row rest ih => simp [normalizeEntriesFrom, List.range'_succ, ih, sourceIndex_normalizeRow]

theorem nodup_sourceIndex_normalizeEntries (src : List Row) :
    ((normalizeEntries src).map (fun r => r.sourceIndex)).Nodup := by
  rw [normalizeEntries, map_sourceIndex_normalizeEntriesFrom]
  exact List.nodup_range' 0 src.length

theorem get_normalizeEntriesFrom (i : ℕ) (src : List Row) (j : ℕ)
    (h : j < (normalizeEntriesFrom i src).length) (h' : j < src.length) :
    (normalizeEntriesFrom i src).get ⟨j, h⟩ = normalizeRow (i + j) (src.get ⟨j, h'⟩) := by
  induction src generalizing i j with
  | nil => exact absurd h' (Nat.not_lt_zero j)
  | cons row rest ih =>
      cases j with
      | zero => rfl
      | succ j' =>
          have h2 : j' < rest.length := Nat.lt_of_succ_lt_succ h'
          have h1 : j' < (normalizeEntriesFrom (i + 1) rest).length := by
            simpa [length_normalizeEntriesFrom] using h2
          simp only [normalizeEntriesFrom, List.get_cons_succ]
          rw [ih (i + 1) j' h1 h2]
          congr 1
          omega

/-- Proof-layer view of one cohort block of a rank table: the entries
recorded for a sorted cohort list, tagged with participant count `c`. -/
def rankEntries (l : List NormRow) (c : ℕ) : List (ℕ × ℕ × ℕ) :=
  l.enum.map (fun p => (p.2.sourceIndex, p.1 + 1, c))

/-- The draft-order block of one cohort key. -/
def draftBlock (rows : List NormRow) (k : Option ℤ × Pos) : List (ℕ × ℕ × ℕ) :=
  rankEntries ((cohortOf rows k).mergeSort draftLE) (cohortOf rows k).length

/-- The price-order block of one cohort key. -/
def priceBlock (rows : List NormRow) (k : Option ℤ × Pos) : List (ℕ × ℕ × ℕ) :=
  rankEntries (((cohortOf rows k).filter (fun r => r.auctionPrice.isSome)).mergeSort priceLE)
    ((cohortOf rows k).filter (fun r => r.auctionPrice.isSome)).length

theorem withPositionDraftOrder_eq (rows : List NormRow) :
    withPositionDraftOrder rows = ((rows.map cohortKey).dedup).flatMap (draftBlock rows) := rfl

theorem withPositionPriceOrder_eq (rows : List NormRow) :
    withPositionPriceOrder rows = ((rows.map cohortKey).dedup).flatMap (priceBlock rows) := rfl

theorem mem_rankEntries {l : List NormRow} {c : ℕ} {e : ℕ × ℕ × ℕ}
    (h : e ∈ rankEntries l c) :
    e.2.2 = c ∧ 1 ≤ e.2.1 ∧ e.2.1 ≤ l.length ∧ ∃ r ∈ l, r.sourceIndex = e.1 := by
  simp only [rankEntries, List.mem_map] at h
  obtain ⟨p, hp, he⟩ := h
  have h1 := List.fst_lt_of_mem_enum hp
  have h2 := List.snd_mem_of_mem_enumFrom hp
  subst he
  refine ⟨rfl, ?_, ?_, p.2, h2, rfl⟩ <;> dsimp only <;> omega

theorem lookup_enumFrom_rank (c : ℕ) (l : List NormRow)
    (hl : (l.map (fun r => r.sourceIndex)).Nodup) (n j : ℕ) (h : j < l.length) :
    ((l.enumFrom n).map (fun p => (p.2.sourceIndex, p.1 + 1, c))).lookup
      ((l.get ⟨j, h⟩).sourceIndex) = some (n + j + 1, c) := by
  induction l generalizing n j with
  | nil => exact absurd h (Nat.not_lt_zero j)
  | cons x xs ih =>
      rw [List.map_cons] at hl
      have hnd := List.nodup_cons.mp hl
      cases j with
      | zero =>
          simp [List.enumFrom, List.lookup]
      | succ j' =>
          have h2 : j' < xs.length := Nat.lt_of_succ_lt_succ h
          have hne : (xs.get ⟨j', h2⟩).sourceIndex ≠ x.sourceIndex := by
            intro he
            exact hnd.1 (he ▸ List.mem_map_of_mem (fun r => r.sourceIndex) (xs.get_mem j' h2))
          have hbne : ((xs.get ⟨j', h2⟩).sourceIndex == x.sourceIndex) = false := by
            simpa using hne
          simp only [List.enumFrom, List.map_cons, List.get_cons_succ, List.lookup, hbne]
          have := ih hnd.2 (n + 1) j' h2
          rw [this]
          congr 2
          omega

theorem lookup_rankEntries (c : ℕ) (l : List NormRow)
    (hl : (l.map (fun r => r.sourceIndex)).Nodup) (j : ℕ) (h : j < l.length) :
    (rankEntries l c).lookup ((l.get ⟨j, h⟩).sourceIndex) = some (j + 1, c) := by
  have := lookup_enumFrom_rank c l hl 0 j h
  simpa [rankEntries, List.enum] using this

theorem lookup_rankEntries_eq_none {l : List NormRow} {c i : ℕ}
    (hi : ∀ r ∈ l, r.sourceIndex ≠ i) :
    (rankEntries l c).lookup i = none := by
  rw [List.lookup_eq_none_iff]
  intro p hp
  simp only [rankEntries, List.mem_map] at hp
  obtain ⟨q, hq, he⟩ := hp
  subst he
  simpa using fun he => hi q.2 (List.snd_mem_of_mem_enumFrom hq) he.symm

theorem lookup_flatMap_eq_none {κ β : Type} (ks : List κ)
    (B : κ → List (ℕ × β)) (i : ℕ)
    (h : ∀ k ∈ ks, (B k).lookup i = none) :
    ((ks.flatMap B).lookup i) = none := by
  induction ks with
  | nil => rfl
  | cons k' ks ih =>
      rw [List.flatMap_cons, List.lookup_append, h k' (by simp)]
      exact ih (fun k hk => h k (by simp [hk]))

theorem lookup_flatMap_eq {κ β : Type} [DecidableEq κ] (ks : List κ)
    (B : κ → List (ℕ × β)) (i : ℕ) (k : κ) (hk : k ∈ ks) (hnd : ks.Nodup)
    (hnone : ∀ k' ∈ ks, k' ≠ k → (B k').lookup i = none) :
    ((ks.flatMap B).lookup i) = (B k).lookup i := by
  induction ks with
  | nil => exact absurd hk (List.not_mem_nil k)
  | cons k' ks ih =>
      have hnd' := List.nodup_cons.mp hnd
      rw [List.flatMap_cons, List.lookup_append]
      by_cases hkk : k' = k
      · subst hkk
        have : (ks.flatMap B).lookup i = none :=
          lookup_flatMap_eq_none ks B i (fun q hq =>
            hnone q (by simp [hq]) (fun he => hnd'.1 (he ▸ hq)))
        rw [this]
        cases (B k').lookup i <;> rfl
      · rw [hnone k' (by simp) hkk]
        have hk2 : k ∈ ks := by
          rcases List.mem_cons.mp hk with h | h
          · exact absurd h.symm hkk
          · exact h
        exact ih hk2 hnd'.2 (fun q hq => hnone q (by simp [hq]))

theorem mem_of_mem_cohortOf {rows : List NormRow} {k : Option ℤ × Pos} {r : NormRow}
    (h : r ∈ cohortOf rows k) : r ∈ rows ∧ cohortKey r = k := by
  have := List.mem_filter.mp h
  simpa using this

theorem mem_cohortOf_self {rows : List NormRow} {r : NormRow} (hr : r ∈ rows) :
    r ∈ cohortOf rows (cohortKey r) :=
  List.mem_filter.mpr ⟨hr, by simp⟩

theorem sourceIndex_inj {rows : List NormRow}
    (hnd : (rows.map (fun r => r.sourceIndex)).Nodup) {a b : NormRow}
    (ha : a ∈ rows) (hb : b ∈ rows) (he : a.sourceIndex = b.sourceIndex) : a = b :=
  List.inj_on_of_nodup_map hnd ha hb he

theorem nodup_idx_of_sublist {rows l : List NormRow}
    (hnd : (rows.map (fun r => r.sourceIndex)).Nodup) (hl : List.Sublist l rows) :
    (l.map (fun r => r.sourceIndex)).Nodup :=
  (hl.map (fun r => r.sourceIndex)).nodup hnd

theorem nodup_idx_mergeSort {l : List NormRow} (le : NormRow → NormRow → Bool)
    (h : (l.map (fun r => r.sourceIndex)).Nodup) :
    ((l.mergeSort le).map (fun r => r.sourceIndex)).Nodup := by
  have hp : List.Perm ((l.mergeSort le).map (fun r => r.sourceIndex))
      (l.map (fun r => r.sourceIndex)) :=
    (List.mergeSort_perm l le).map (fun r => r.sourceIndex)
  exact hp.nodup_iff.mpr h

theorem nodup_idx_cohortOf {rows : List NormRow}
    (hnd : (rows.map (fun r => r.sourceIndex)).Nodup) (k : Option ℤ × Pos) :
    ((cohortOf rows k).map (fun r => r.sourceIndex)).Nodup :=
  nodup_idx_of_sublist hnd (List.filter_sublist rows)

theorem nodup_idx_priceCohort {rows : List NormRow}
    (hnd : (rows.map (fun r => r.sourceIndex)).Nodup) (k : Option ℤ × Pos) :
    (((cohortOf rows k).filter (fun r => r.auctionPrice.isSome)).map (fun r => r.sourceIndex)).Nodup :=
  nodup_idx_of_sublist hnd ((List.filter_sublist _).trans (List.filter_sublist rows))

theorem lookup_draft_of_get {rows : List NormRow}
    (hnd : (rows.map (fun r => r.sourceIndex)).Nodup) {k : Option ℤ × Pos} {j : ℕ}
    (h : j < ((cohortOf rows k).mergeSort draftLE).length) :
    (withPositionDraftOrder rows).lookup
        ((((cohortOf rows k).mergeSort draftLE).get ⟨j, h⟩).sourceIndex)
      = some (j + 1, (cohortOf rows k).length) := by
  set sorted := (cohortOf rows k).mergeSort draftLE with hs
  set r := sorted.get ⟨j, h⟩ with hrdef
  have hrs : r ∈ sorted := sorted.get_mem j h
  have hrg : r ∈ cohortOf rows k := (List.mergeSort_perm _ _).subset hrs
  have hrr : r ∈ rows := (mem_of_mem_cohortOf hrg).1
  have hrk : cohortKey r = k := (mem_of_mem_cohortOf hrg).2
  have hk : k ∈ (rows.map cohortKey).dedup :=
    List.mem_dedup.mpr (hrk ▸ List.mem_map_of_mem cohortKey hrr)
  rw [withPositionDraftOrder_eq,
    lookup_flatMap_eq _ _ _ k hk (List.nodup_dedup _) ?none]
  case none =>
    intro k' hk' hkne
    refine lookup_rankEntries_eq_none (fun x hx he => ?_)
    have hxg : x ∈ cohortOf rows k' := (List.mergeSort_perm _ _).subset hx
    have hxr : x ∈ rows := (mem_of_mem_cohortOf hxg).1
    have hxk : cohortKey x = k' := (mem_of_mem_cohortOf hxg).2
    have : x = r := sourceIndex_inj hnd hxr hrr he
    exact hkne (by rw [← hxk, this, hrk])
  exact lookup_rankEntries _ sorted (nodup_idx_mergeSort draftLE (nodup_idx_cohortOf hnd k)) j h

theorem lookup_draft_of_mem {rows : List NormRow}
    (hnd : (rows.map (fun r => r.sourceIndex)).Nodup) {r : NormRow} (hr : r ∈ rows) :
    ∃ j, ∃ h : j < ((cohortOf rows (cohortKey r)).mergeSort draftLE).length,
      ((cohortOf rows (cohortKey r)).mergeSort draftLE).get ⟨j, h⟩ = r ∧
      (withPositionDraftOrder rows).lookup r.sourceIndex
        = some (j + 1, (cohortOf rows (cohortKey r)).length) := by
  have hrg : r ∈ cohortOf rows (cohortKey r) := mem_cohortOf_self hr
  have hrs : r ∈ (cohortOf rows (cohortKey r)).mergeSort draftLE :=
    ((List.mergeSort_perm _ _).symm).subset hrg
  obtain ⟨⟨j, hj⟩, hget⟩ := List.mem_iff_get.mp hrs
  refine ⟨j, hj, hget, ?_⟩
  have := lookup_draft_of_get hnd (k := cohortKey r) hj
  rwa [hget] at this

theorem lookup_price_of_get {rows : List NormRow}
    (hnd : (rows.map (fun r => r.sourceIndex)).Nodup) {k : Option ℤ × Pos} {j : ℕ}
    (h : j < (((cohortOf rows k).filter (fun r => r.auctionPrice.isSome)).mergeSort priceLE).length) :
    (withPositionPriceOrder rows).lookup
        (((((cohortOf rows k).filter (fun r => r.auctionPrice.isSome)).mergeSort priceLE).get
          ⟨j, h⟩).sourceIndex)
      = some (j + 1, ((cohortOf rows k).filter (fun r => r.auctionPrice.isSome)).length) := by
  set grp := (cohortOf rows k).filter (fun r => r.auctionPrice.isSome) with hg
  set sorted := grp.mergeSort priceLE with hs
  set r := sorted.get ⟨j, h⟩ with hrdef
  have hrs : r ∈ sorted := sorted.get_mem j h
  have hrg : r ∈ grp := (List.mergeSort_perm _ _).subset hrs
  have hrg2 : r ∈ cohortOf rows k := List.mem_of_mem_filter hrg
  have hrr : r ∈ rows := (mem_of_mem_cohortOf hrg2).1
  have hrk : cohortKey r = k := (mem_of_mem_cohortOf hrg2).2
  have hk : k ∈ (rows.map cohortKey).dedup :=
    List.mem_dedup.mpr (hrk ▸ List.mem_map_of_mem cohortKey hrr)
  rw [withPositionPriceOrder_eq,
    lookup_flatMap_eq _ _ _ k hk (List.nodup_dedup _) ?none]
  case none =>
    intro k' hk' hkne
    refine lookup_rankEntries_eq_none (fun x hx he => ?_)
    have hxg : x ∈ (cohortOf rows k').filter (fun r => r.auctionPrice.isSome) :=
      (List.mergeSort_perm _ _).subset hx
    have hxg2 : x ∈ cohortOf rows k' := List.mem_of_mem_filter hxg
    have hxr : x ∈ rows := (mem_of_mem_cohortOf hxg2).1
    have hxk : cohortKey x = k' := (mem_of_mem_cohortOf hxg2).2
    have : x = r := sourceIndex_inj hnd hxr hrr he
    exact hkne (by rw [← hxk, this, hrk])
  exact lookup_rankEntries _ sorted (nodup_idx_mergeSort priceLE (nodup_idx_priceCohort hnd k)) j h

theorem lookup_price_of_mem {rows : List NormRow}
    (hnd : (rows.map (fun r => r.sourceIndex)).Nodup) {r : NormRow} (hr : r ∈ rows)
    (hp : r.auctionPrice.isSome) :
    ∃ j, ∃ h : j < (((cohortOf rows (cohortKey r)).filter
        (fun x => x.auctionPrice.isSome)).mergeSort priceLE).length,
      (((cohortOf rows (cohortKey r)).filter
        (fun x => x.auctionPrice.isSome)).mergeSort priceLE).get ⟨j, h⟩ = r ∧
      (withPositionPriceOrder rows).lookup r.sourceIndex
        = some (j + 1, ((cohortOf rows (cohortKey r)).filter
            (fun x => x.auctionPrice.isSome)).length) := by
  have hrg : r ∈ (cohortOf rows (cohortKey r)).filter (fun x => x.auctionPrice.isSome) :=
    List.mem_filter.mpr ⟨mem_cohortOf_self hr, hp⟩
  have hrs : r ∈ ((cohortOf rows (cohortKey r)).filter
      (fun x => x.auctionPrice.isSome)).mergeSort priceLE :=
    ((List.mergeSort_perm _ _).symm).subset hrg
  obtain ⟨⟨j, hj⟩, hget⟩ := List.mem_iff_get.mp hrs
  refine ⟨j, hj, hget, ?_⟩
  have := lookup_price_of_get hnd (k := cohortKey r) hj
  rwa [hget] at this

theorem mem_of_lookup_some {β : Type} {l : List (ℕ × β)} {i : ℕ} {b : β}
    (h : l.lookup i = some b) : (i, b) ∈ l := by
  rw [List.lookup_eq_some_iff] at h
  obtain ⟨l₁, l₂, he, -⟩ := h
  rw [he]
  simp

theorem draft_lookup_bounds {rows : List NormRow} {i o c : ℕ}
    (h : (withPositionDraftOrder rows).lookup i = some (o, c)) : 1 ≤ o ∧ o ≤ c := by
  have hm := mem_of_lookup_some h
  rw [withPositionDraftOrder_eq] at hm
  obtain ⟨k, hk, hmem⟩ := List.mem_flatMap.mp hm
  have := mem_rankEntries hmem
  have hlen : ((cohortOf rows k).mergeSort draftLE).length = (cohortOf rows k).length :=
    (List.mergeSort_perm _ _).length_eq
  exact ⟨this.2.1, by dsimp at this; omega⟩

theorem price_lookup_bounds {rows : List NormRow} {i o c : ℕ}
    (h : (withPositionPriceOrder rows).lookup i = some (o, c)) : 1 ≤ o ∧ o ≤ c := by
  have hm := mem_of_lookup_some h
  rw [withPositionPriceOrder_eq] at hm
  obtain ⟨k, hk, hmem⟩ := List.mem_flatMap.mp hm
  have := mem_rankEntries hmem
  have hlen : (((cohortOf rows k).filter (fun r => r.auctionPrice.isSome)).mergeSort priceLE).length
      = ((cohortOf rows k).filter (fun r => r.auctionPrice.isSome)).length :=
    (List.mergeSort_perm _ _).length_eq
  exact ⟨this.2.1, by dsimp at this; omega⟩

theorem mem_enrichDraftEntries {src : List Row} {cfg : MetricConfig} {e : EnrichedRow} :
    e ∈ enrichDraftEntries src cfg ↔ ∃ r ∈ normalizeEntries src,
      e = enrichRow cfg (withPositionDraftOrder (normalizeEntries src))
        (withPositionPriceOrder (normalizeEntries src)) r := by
  simp [enrichDraftEntries, List.mem_map, eq_comm]

/-- C1: a defined finish rank is the floor of a parsed value that survived
the positivity test, hence non-negative; it is at least 1 whenever the
parsed value is at least 1, but a parsed value in (0, 1) floors to 0. -/
theorem claim_C1 (row : Row) (n : ℤ) (h : parseFinishRank row = some n) :
    0 ≤ n ∧ ∃ q : ℚ, toFiniteNumber (firstPresentValue row FINISH_RANK_FIELD_CANDIDATES) = some q ∧
      0 < q ∧ n = ⌊q⌋ ∧ (1 ≤ q → 1 ≤ n) := by
  unfold parseFinishRank at h
  cases hq : toFiniteNumber (firstPresentValue row FINISH_RANK_FIELD_CANDIDATES) with
  | none => rw [hq] at h; cases h
  | some q =>
      rw [hq] at h
      by_cases hle : q ≤ 0
      · simp [hle] at h
      · have hpos : 0 < q := not_le.mp hle
        simp only [if_neg hle, Option.some.injEq] at h
        subst h
        exact ⟨Int.floor_nonneg.mpr hpos.le, q, rfl, hpos, rfl,
          fun h1 => Int.le_floor.mpr (by exact_mod_cast h1)⟩

/-- C1 fails as stated: a raw finish-rank value of 1/2 parses, passes the
positivity test, and floors to 0, so a defined finishRank of 0 is produced. -/
theorem claim_C1_counterexample :
    ∃ (row : Row) (n : ℤ), parseFinishRank row = some n ∧ n < 1 := by
  refine ⟨[("positionrank", JSVal.num (1/2))], 0, ?_, by norm_num⟩
  have h2 : ¬((1 : ℚ)/2 ≤ 0) := by norm_num
  have h3 : (⌊(1 : ℚ)/2⌋ : ℤ) = 0 := by norm_num
  simp [parseFinishRank, toFiniteNumber, firstPresentValue,
    FINISH_RANK_FIELD_CANDIDATES, lookupKey, List.lookup, h2, h3]
  norm_num

/-- Witness for C1 at a concrete record with finish rank 7. -/
theorem claim_C1_witness :
    0 ≤ (7 : ℤ) ∧ ∃ q : ℚ,
      toFiniteNumber (firstPresentValue [("positionrank", JSVal.num 7)]
        FINISH_RANK_FIELD_CANDIDATES) = some q ∧
      0 < q ∧ (7 : ℤ) = ⌊q⌋ ∧ (1 ≤ q → 1 ≤ (7 : ℤ)) :=
  claim_C1 [("positionrank", JSVal.num 7)] 7 (by
    have h2 : ¬((7 : ℚ) ≤ 0) := by norm_num
    have h3 : (⌊(7 : ℚ)⌋ : ℤ) = 7 := by norm_num
    simp [parseFinishRank, toFiniteNumber, firstPresentValue,
      FINISH_RANK_FIELD_CANDIDATES, lookupKey, List.lookup, h2, h3])

theorem enrichRow_isDefenseOrKicker (cfg : MetricConfig) (m1 m2 : List (ℕ × ℕ × ℕ)) (r : NormRow) :
    (enrichRow cfg m1 m2 r).isDefenseOrKicker = r.isDefenseOrKicker := rfl

theorem enrichRow_posDraftCount (cfg : MetricConfig) (m1 m2 : List (ℕ × ℕ × ℕ)) (r : NormRow) :
    (enrichRow cfg m1 m2 r).posDraftCount = (m1.lookup r.sourceIndex).map Prod.snd := rfl

theorem enrichRow_posPriceOrder (cfg : MetricConfig) (m1 m2 : List (ℕ × ℕ × ℕ)) (r : NormRow) :
    (enrichRow cfg m1 m2 r).posPriceOrder = (m2.lookup r.sourceIndex).map Prod.fst := rfl

theorem enrichRow_posPriceCount (cfg : MetricConfig) (m1 m2 : List (ℕ × ℕ × ℕ)) (r : NormRow) :
    (enrichRow cfg m1 m2 r).posPriceCount = (m2.lookup r.sourceIndex).map Prod.snd := rfl

theorem enrichRow_isRankEligible (cfg : MetricConfig) (m1 m2 : List (ℕ × ℕ × ℕ)) (r : NormRow) :
    (enrichRow cfg m1 m2 r).isRankEligible
      = (!r.isDefenseOrKicker && (enrichRow cfg m1 m2 r).effectiveFinishRank.isSome) := rfl

theorem enrichRow_finishPoolSize (cfg : MetricConfig) (m1 m2 : List (ℕ × ℕ × ℕ)) (r : NormRow) :
    (if cfg.finishPoolStrategy = .cap ∧ (cfg.positionCaps r.normalizedPosition).isSome
      then cfg.positionCaps r.normalizedPosition
      else Option.map (fun n => ((n : ℕ) : ℚ)) ((m1.lookup r.sourceIndex).map Prod.snd))
      = (if cfg.finishPoolStrategy = .cap ∧ (cfg.positionCaps r.normalizedPosition).isSome
          then cfg.positionCaps r.normalizedPosition
          else Option.map (fun n => ((n : ℕ) : ℚ)) (enrichRow cfg m1 m2 r).posDraftCount) := rfl

theorem enrichRow_imputedFinishRank (cfg : MetricConfig) (m1 m2 : List (ℕ × ℕ × ℕ)) (r : NormRow) :
    (enrichRow cfg m1 m2 r).imputedFinishRank
      = (if !r.isDefenseOrKicker && r.finishRank.isNone &&
            (if cfg.finishPoolStrategy = .cap ∧ (cfg.positionCaps r.normalizedPosition).isSome
              then cfg.positionCaps r.normalizedPosition
              else Option.map (fun n => ((n : ℕ) : ℚ)) (enrichRow cfg m1 m2 r).posDraftCount).isSome
          then (if cfg.finishPoolStrategy = .cap ∧ (cfg.positionCaps r.normalizedPosition).isSome
              then cfg.positionCaps r.normalizedPosition
              else Option.map (fun n => ((n : ℕ) : ℚ)) (enrichRow cfg m1 m2 r).posDraftCount)
          else none) := rfl

theorem enrichRow_effectiveFinishRank (cfg : MetricConfig) (m1 m2 : List (ℕ × ℕ × ℕ)) (r : NormRow) :
    (enrichRow cfg m1 m2 r).effectiveFinishRank
      = (match r.finishRank with
          | some n => some ((n : ℤ) : ℚ)
          | none => (enrichRow cfg m1 m2 r).imputedFinishRank) := rfl

theorem enrichRow_draftPercentile (cfg : MetricConfig) (m1 m2 : List (ℕ × ℕ × ℕ)) (r : NormRow) :
    (enrichRow cfg m1 m2 r).draftPercentileWithinPos
      = (if !r.isDefenseOrKicker then
          percentileFromRank (Option.map (fun n => ((n : ℕ) : ℚ)) (enrichRow cfg m1 m2 r).posDraftOrder)
            (Option.map (fun n => ((n : ℕ) : ℚ)) (enrichRow cfg m1 m2 r).posDraftCount)
        else none) := rfl

theorem enrichRow_finishPercentile (cfg : MetricConfig) (m1 m2 : List (ℕ × ℕ × ℕ)) (r : NormRow) :
    (enrichRow cfg m1 m2 r).finishPercentileWithinPos
      = (if (enrichRow cfg m1 m2 r).isRankEligible then
          percentileFromRank (enrichRow cfg m1 m2 r).effectiveFinishRank
            (if cfg.finishPoolStrategy = .cap ∧ (cfg.positionCaps r.normalizedPosition).isSome
              then cfg.positionCaps r.normalizedPosition
              else Option.map (fun n => ((n : ℕ) : ℚ)) (enrichRow cfg m1 m2 r).posDraftCount)
        else none) := rfl

theorem enrichRow_posRankDelta (cfg : MetricConfig) (m1 m2 : List (ℕ × ℕ × ℕ)) (r : NormRow) :
    (enrichRow cfg m1 m2 r).posRankDelta
      = (if (enrichRow cfg m1 m2 r).isRankEligible then
          some ((((enrichRow cfg m1 m2 r).posDraftOrder.getD 0 : ℕ) : ℚ)
            - (enrichRow cfg m1 m2 r).effectiveFinishRank.getD 0)
        else none) := rfl

theorem enrichRow_priceVsFinishDelta (cfg : MetricConfig) (m1 m2 : List (ℕ × ℕ × ℕ)) (r : NormRow) :
    (enrichRow cfg m1 m2 r).priceVsFinishDelta
      = (if (enrichRow cfg m1 m2 r).isRankEligible
            && (enrichRow cfg m1 m2 r).posPriceOrder.isSome then
          some ((((enrichRow cfg m1 m2 r).posPriceOrder.getD 0 : ℕ) : ℚ)
            - (enrichRow cfg m1 m2 r).effectiveFinishRank.getD 0)
        else none) := rfl

theorem enrichRow_valueRatio (cfg : MetricConfig) (m1 m2 : List (ℕ × ℕ × ℕ)) (r : NormRow) :
    (enrichRow cfg m1 m2 r).valueRatio
      = (if (enrichRow cfg m1 m2 r).isRankEligible then
          some ((((enrichRow cfg m1 m2 r).posDraftOrder.getD 0 : ℕ) : ℚ)
            / (enrichRow cfg m1 m2 r).effectiveFinishRank.getD 0)
        else none) := rfl

theorem enrichRow_beatCost (cfg : MetricConfig) (m1 m2 : List (ℕ × ℕ × ℕ)) (r : NormRow) :
    (enrichRow cfg m1 m2 r).beatCost
      = ((enrichRow cfg m1 m2 r).isRankEligible
          && decide ((enrichRow cfg m1 m2 r).effectiveFinishRank.getD 0
            < (((enrichRow cfg m1 m2 r).posDraftOrder.getD 0 : ℕ) : ℚ))) := rfl

theorem enrichRow_metCost (cfg : MetricConfig) (m1 m2 : List (ℕ × ℕ × ℕ)) (r : NormRow) :
    (enrichRow cfg m1 m2 r).metCost
      = ((enrichRow cfg m1 m2 r).isRankEligible
          && (enrichRow cfg m1 m2 r).posDraftOrder.isSome
          && decide ((enrichRow cfg m1 m2 r).effectiveFinishRank.getD 0
            = (((enrichRow cfg m1 m2 r).posDraftOrder.getD 0 : ℕ) : ℚ))) := rfl

theorem enrichRow_missedCost (cfg : MetricConfig) (m1 m2 : List (ℕ × ℕ × ℕ)) (r : NormRow) :
    (enrichRow cfg m1 m2 r).missedCost
      = ((enrichRow cfg m1 m2 r).isRankEligible
          && decide ((((enrichRow cfg m1 m2 r).posDraftOrder.getD 0 : ℕ) : ℚ)
            < (enrichRow cfg m1 m2 r).effectiveFinishRank.getD 0)) := rfl

theorem enrichRow_hitTier (cfg : MetricConfig) (m1 m2 : List (ℕ × ℕ × ℕ)) (r : NormRow) :
    (enrichRow cfg m1 m2 r).hitTier
      = (if r.isDefenseOrKicker then Tier.excluded
        else if !(enrichRow cfg m1 m2 r).isRankEligible then Tier.unranked
        else if (enrichRow cfg m1 m2 r).beatCost then Tier.win
        else if (enrichRow cfg m1 m2 r).missedCost then Tier.loss
        else Tier.neutral) := rfl

theorem enrichDraftEntries_eq (src : List Row) (cfg : MetricConfig) :
    enrichDraftEntries src cfg = (normalizeEntries src).map
      (enrichRow cfg (withPositionDraftOrder (normalizeEntries src))
        (withPositionPriceOrder (normalizeEntries src))) := rfl

/-- Concrete fixture: a QB drafted early (overall 10) who finished 5th. -/
def exA : Row := [("player", .str "A"), ("manager", .str "M1"), ("position", .str "QB"),
  ("year", .num 2020), ("overall", .num 10), ("positionrank", .num 5), ("price", .num 30)]

/-- Concrete fixture: a QB drafted later (overall 20) who finished 1st. -/
def exB : Row := [("player", .str "B"), ("position", .str "QB"),
  ("year", .num 2020), ("overall", .num 20), ("positionrank", .num 1)]

/-- Normalized form of `exA`. -/
def nExA : NormRow :=
  { row := exA
    sourceIndex := 0
    analysisYear := some 2020
    analysisOverall := some 10
    normalizedPosition := .QB
    isDefenseOrKicker := false
    managerValue := "M1"
    playerValue := "A"
    finishRank := some 5
    auctionPrice := some 30 }

/-- Normalized form of `exB`. -/
def nExB : NormRow :=
  { row := exB
    sourceIndex := 1
    analysisYear := some 2020
    analysisOverall := some 20
    normalizedPosition := .QB
    isDefenseOrKicker := false
    managerValue := "Unknown Manager"
    playerValue := "B"
    finishRank := some 1
    auctionPrice := none }

theorem normalizeEntries_ex : normalizeEntries [exA, exB] = [nExA, nExB] := by
  simp [normalizeEntries, normalizeEntriesFrom, normalizeRow, nExA, nExB,
    parseFinishRank, parseAuctionPrice, toFiniteNumber,
    firstPresentValue, FINISH_RANK_FIELD_CANDIDATES, PRICE_FIELD_CANDIDATES,
    MANAGER_FIELD_CANDIDATES, PLAYER_FIELD_CANDIDATES, lookupKey,
    List.lookup, List.findSome?_cons, List.findSome?_nil, jsTrim, jsToUpper,
    normalizePosition, detectManagerValue, detectPlayerValue, isNilOrBlank,
    jsToString, Bool.beq_eq_decide_eq, exA, exB]

theorem draftOrder_ex : withPositionDraftOrder [nExA, nExB] = [(0, 1, 2), (1, 2, 2)] := by
  simp [withPositionDraftOrder, cohortOf, cohortKey, nExA, nExB,
    List.dedup_cons_of_mem, List.dedup_cons_of_not_mem, List.dedup_nil,
    List.mergeSort, List.merge, draftLE, List.enum, List.enumFrom,
    Bool.beq_eq_decide_eq]

theorem priceOrder_ex : withPositionPriceOrder [nExA, nExB] = [(0, 1, 1)] := by
  simp [withPositionPriceOrder, cohortOf, cohortKey, nExA, nExB,
    List.dedup_cons_of_mem, List.dedup_cons_of_not_mem, List.dedup_nil,
    List.mergeSort, List.merge, priceLE, List.enum, List.enumFrom,
    Bool.beq_eq_decide_eq]

/-- The enriched form of `exA` in the two-record fixture. -/
def eExA : EnrichedRow :=
  enrichRow defaultMetricConfig [(0, 1, 2), (1, 2, 2)] [(0, 1, 1)] nExA

/-- The enriched form of `exB` in the two-record fixture. -/
def eExB : EnrichedRow :=
  enrichRow defaultMetricConfig [(0, 1, 2), (1, 2, 2)] [(0, 1, 1)] nExB

theorem enrich_ex : enrichDraftEntries [exA, exB] defaultMetricConfig = [eExA, eExB] := by
  rw [enrichDraftEntries_eq, normalizeEntries_ex, draftOrder_ex, priceOrder_ex]
  rfl

theorem eExA_effectiveFinishRank : eExA.effectiveFinishRank = some 5 := by
  rw [eExA, enrichRow_effectiveFinishRank]
  rfl

theorem eExA_isRankEligible : eExA.isRankEligible = true := by
  rw [eExA, enrichRow_isRankEligible]
  rw [show (enrichRow defaultMetricConfig [(0, 1, 2), (1, 2, 2)] [(0, 1, 1)] nExA)
    = eExA from rfl, eExA_effectiveFinishRank]
  rfl

/-- C5: for every rank-eligible enriched record, the value ratio is exactly
positional draft order over effective finish rank, and the positional rank
delta is exactly their difference. -/
theorem claim_C5 (src : List Row) (cfg : MetricConfig) (e : EnrichedRow)
    (he : e ∈ enrichDraftEntries src cfg) (hel : e.isRankEligible = true) :
    ∃ (o : ℕ) (f : ℚ), e.posDraftOrder = some o ∧ e.effectiveFinishRank = some f ∧
      e.valueRatio = some ((o : ℚ) / f) ∧ e.posRankDelta = some ((o : ℚ) - f) := by
  obtain ⟨r, hr, rfl⟩ := mem_enrichDraftEntries.mp he
  obtain ⟨j, hj, hget, hlu⟩ := lookup_draft_of_mem (nodup_sourceIndex_normalizeEntries src) hr
  have hord : (enrichRow cfg (withPositionDraftOrder (normalizeEntries src))
      (withPositionPriceOrder (normalizeEntries src)) r).posDraftOrder = some (j + 1) := by
    rw [enrichRow_posDraftOrder, hlu]
    rfl
  have hel' := hel
  rw [enrichRow_isRankEligible, Bool.and_eq_true] at hel'
  obtain ⟨f, hf⟩ := Option.isSome_iff_exists.mp hel'.2
  refine ⟨j + 1, f, hord, hf, ?_, ?_⟩
  · rw [enrichRow_valueRatio, hel, if_pos rfl, hord, hf]
    rfl
  · rw [enrichRow_posRankDelta, hel, if_pos rfl, hord, hf]
    rfl

/-- Witness for C5 at the concrete two-QB fixture. -/
theorem claim_C5_witness :
    eExA ∈ enrichDraftEntries [exA, exB] defaultMetricConfig ∧
    eExA.isRankEligible = true ∧
    ∃ (o : ℕ) (f : ℚ), eExA.posDraftOrder = some o ∧ eExA.effectiveFinishRank = some f ∧
      eExA.valueRatio = some ((o : ℚ) / f) ∧ eExA.posRankDelta = some ((o : ℚ) - f) := by
  have h1 : eExA ∈ enrichDraftEntries [exA, exB] defaultMetricConfig := by
    rw [enrich_ex]
    exact List.mem_cons_self eExA [eExB]
  exact ⟨h1, eExA_isRankEligible,
    claim_C5 [exA, exB] defaultMetricConfig eExA h1 eExA_isRankEligible⟩

/-- C3 (amended): the price-vs-finish delta is defined exactly when the
record is rank-eligible and has a price order, and then equals price order
minus effective finish rank. -/
theorem claim_C3 (src : List Row) (cfg : MetricConfig) (e : EnrichedRow)
    (he : e ∈ enrichDraftEntries src cfg) :
    (e.priceVsFinishDelta ≠ none ↔ (e.isRankEligible = true ∧ e.posPriceOrder ≠ none)) ∧
    (∀ (p : ℕ) (f : ℚ), e.isRankEligible = true → e.posPriceOrder = some p →
      e.effectiveFinishRank = some f → e.priceVsFinishDelta = some ((p : ℚ) - f)) := by
  obtain ⟨r, hr, he2⟩ := mem_enrichDraftEntries.mp he
  have hP := enrichRow_priceVsFinishDelta cfg (withPositionDraftOrder (normalizeEntries src))
    (withPositionPriceOrder (normalizeEntries src)) r
  rw [← he2] at hP
  constructor
  · rw [hP]
    cases hel : e.isRankEligible <;> cases hpo : e.posPriceOrder <;> simp [hpo]
  · intro p f hel hpo heff
    rw [hP, hel, hpo, heff]
    simp

/-- Concrete fixture: a DST record carrying both a finish rank and a price. -/
def dstRow : Row := [("position", .str "DST"), ("year", .num 2020),
  ("overall", .num 1), ("positionrank", .num 3), ("price", .num 10)]

/-- Normalized form of `dstRow`. -/
def nDst : NormRow :=
  { row := dstRow
    sourceIndex := 0
    analysisYear := some 2020
    analysisOverall := some 1
    normalizedPosition := .DST
    isDefenseOrKicker := true
    managerValue := "Unknown Manager"
    playerValue := "Unknown Player"
    finishRank := some 3
    auctionPrice := some 10 }

theorem normalizeEntries_dst : normalizeEntries [dstRow] = [nDst] := by
  simp [normalizeEntries, normalizeEntriesFrom, normalizeRow, nDst,
    parseFinishRank, parseAuctionPrice, toFiniteNumber,
    firstPresentValue, FINISH_RANK_FIELD_CANDIDATES, PRICE_FIELD_CANDIDATES,
    MANAGER_FIELD_CANDIDATES, PLAYER_FIELD_CANDIDATES, lookupKey,
    List.lookup, List.findSome?_cons, List.findSome?_nil, jsTrim, jsToUpper,
    normalizePosition, detectManagerValue, detectPlayerValue, isNilOrBlank,
    jsToString, Bool.beq_eq_decide_eq, dstRow]

theorem draftOrder_dst : withPositionDraftOrder [nDst] = [(0, 1, 1)] := by
  simp [withPositionDraftOrder, cohortOf, cohortKey, nDst,
    List.dedup_cons_of_mem, List.dedup_cons_of_not_mem, List.dedup_nil,
    List.mergeSort, List.merge, draftLE, List.enum, List.enumFrom,
    Bool.beq_eq_decide_eq]

theorem priceOrder_dst : withPositionPriceOrder [nDst] = [(0, 1, 1)] := by
  simp [withPositionPriceOrder, cohortOf, cohortKey, nDst,
    List.dedup_cons_of_mem, List.dedup_cons_of_not_mem, List.dedup_nil,
    List.mergeSort, List.merge, priceLE, List.enum, List.enumFrom,
    Bool.beq_eq_decide_eq]

/-- The enriched form of `dstRow`. -/
def eDst : EnrichedRow := enrichRow defaultMetricConfig [(0, 1, 1)] [(0, 1, 1)] nDst

theorem enrich_dst : enrichDraftEntries [dstRow] defaultMetricConfig = [eDst] := by
  rw [enrichDraftEntries_eq, normalizeEntries_dst, draftOrder_dst, priceOrder_dst]
  rfl

/-- C3 fails as stated: a DST record with both a price order and an effective
finish rank still gets an absent price-vs-finish delta, because the code
additionally requires rank eligibility (non-K/DST). -/
theorem claim_C3_counterexample :
    ∃ e ∈ enrichDraftEntries [dstRow] defaultMetricConfig,
      e.posPriceOrder ≠ none ∧ e.effectiveFinishRank ≠ none ∧ e.priceVsFinishDelta = none := by
  refine ⟨eDst, by rw [enrich_dst]; exact List.mem_cons_self _ _, ?_, ?_, ?_⟩
  · rw [eDst, enrichRow_posPriceOrder]
    simp [nDst, List.lookup]
  · rw [eDst, enrichRow_effectiveFinishRank]
    simp [nDst]
  · rw [eDst, enrichRow_priceVsFinishDelta, enrichRow_isRankEligible]
    simp [nDst]

/-- Witness for C3 at the two-QB fixture: draft order 1 at price order 1
with finish 5 gives delta 1 − 5. -/
theorem claim_C3_witness : eExA.priceVsFinishDelta = some ((1 : ℚ) - 5) := by
  have h1 : eExA ∈ enrichDraftEntries [exA, exB] defaultMetricConfig := by
    rw [enrich_ex]
    exact List.mem_cons_self eExA [eExB]
  have h2 : eExA.posPriceOrder = some 1 := by
    rw [eExA, enrichRow_posPriceOrder]
    simp [nExA, List.lookup]
  exact (claim_C3 [exA, exB] defaultMetricConfig eExA h1).2 1 5
    eExA_isRankEligible h2 eExA_effectiveFinishRank

/-- C4: the outcome tier is a single five-way classification characterized by
K/DST exclusion and rank eligibility, and the three cost booleans mirror the
win/neutral/loss tiers exactly for rank-eligible records while being all
false otherwise. -/
theorem claim_C4 (src : List Row) (cfg : MetricConfig) (e : EnrichedRow)
    (he : e ∈ enrichDraftEntries src cfg) :
    (e.hitTier = Tier.excluded ↔ e.isDefenseOrKicker = true) ∧
    (e.hitTier = Tier.unranked ↔ (e.isDefenseOrKicker = false ∧ e.isRankEligible = false)) ∧
    ((e.hitTier = Tier.win ∨ e.hitTier = Tier.loss ∨ e.hitTier = Tier.neutral)
      ↔ e.isRankEligible = true) ∧
    (e.isRankEligible = true →
      (e.beatCost = true ↔ e.hitTier = Tier.win) ∧
      (e.metCost = true ↔ e.hitTier = Tier.neutral) ∧
      (e.missedCost = true ↔ e.hitTier = Tier.loss)) ∧
    (e.isRankEligible = false →
      e.beatCost = false ∧ e.metCost = false ∧ e.missedCost = false) := by
  obtain ⟨r, hr, he2⟩ := mem_enrichDraftEntries.mp he
  obtain ⟨j, hj, hget, hlu⟩ := lookup_draft_of_mem (nodup_sourceIndex_normalizeEntries src) hr
  have hord : e.posDraftOrder = some (j + 1) := by
    rw [he2, enrichRow_posDraftOrder, hlu]
    rfl
  have hdkE : e.isDefenseOrKicker = r.isDefenseOrKicker := by
    rw [he2, enrichRow_isDefenseOrKicker]
  have hEl := enrichRow_isRankEligible cfg (withPositionDraftOrder (normalizeEntries src))
    (withPositionPriceOrder (normalizeEntries src)) r
  rw [← he2] at hEl
  rw [← hdkE] at hEl
  have hTier := enrichRow_hitTier cfg (withPositionDraftOrder (normalizeEntries src))
    (withPositionPriceOrder (normalizeEntries src)) r
  rw [← he2] at hTier
  rw [← hdkE] at hTier
  have hBeat := enrichRow_beatCost cfg (withPositionDraftOrder (normalizeEntries src))
    (withPositionPriceOrder (normalizeEntries src)) r
  rw [← he2] at hBeat
  have hMet := enrichRow_metCost cfg (withPositionDraftOrder (normalizeEntries src))
    (withPositionPriceOrder (normalizeEntries src)) r
  rw [← he2] at hMet
  have hMissed := enrichRow_missedCost cfg (withPositionDraftOrder (normalizeEntries src))
    (withPositionPriceOrder (normalizeEntries src)) r
  rw [← he2] at hMissed
  cases hdk : e.isDefenseOrKicker with
  | true =>
      have hel : e.isRankEligible = false := by rw [hEl, hdk]; rfl
      refine ⟨by simp [hTier, hdk], by simp [hTier, hdk], ?_, ?_, ?_⟩
      · simp [hTier, hdk, hel]
      · intro h
        rw [h] at hel
        cases hel
      · intro h
        exact ⟨by simp [hBeat, hel], by simp [hMet, hel], by simp [hMissed, hel]⟩
  | false =>
      cases heff : e.effectiveFinishRank with
      | none =>
          have hel : e.isRankEligible = false := by rw [hEl, hdk, heff]; rfl
          refine ⟨by simp [hTier, hdk, hel], by simp [hTier, hdk, hel], ?_, ?_, ?_⟩
          · simp [hTier, hdk, hel]
          · intro h
            rw [h] at hel
            cases hel
          · intro h
            exact ⟨by simp [hBeat, hel], by simp [hMet, hel], by simp [hMissed, hel]⟩
      | some f =>
          have hel : e.isRankEligible = true := by rw [hEl, hdk, heff]; rfl
          have hordS : e.posDraftOrder.isSome = true := by rw [hord]; rfl
          rcases lt_trichotomy f ((j : ℚ) + 1) with h | h | h
          · have hb : e.beatCost = true := by
              simp [hBeat, hel, heff, hord, h]
            have hm : e.missedCost = false := by
              simp [hMissed, hel, heff, hord, not_lt.mpr h.le]
            have hq : e.metCost = false := by
              simp [hMet, hel, heff, hord, hordS, ne_of_lt h]
            have ht : e.hitTier = Tier.win := by
              simp [hTier, hdk, hel, hb]
            refine ⟨by simp [ht, hdk], by simp [ht, hel], by simp [ht, hel],
              fun _ => ⟨by simp [hb, ht], by simp [hq, ht], by simp [hm, ht]⟩,
              fun hfe => by rw [hfe] at hel; cases hel⟩
          · have hb : e.beatCost = false := by
              simp [hBeat, hel, heff, hord, h]
            have hm : e.missedCost = false := by
              simp [hMissed, hel, heff, hord, h]
            have hq : e.metCost = true := by
              simp [hMet, hel, heff, hord, hordS, h]
            have ht : e.hitTier = Tier.neutral := by
              simp [hTier, hdk, hel, hb, hm]
            refine ⟨by simp [ht, hdk], by simp [ht, hel], by simp [ht, hel],
              fun _ => ⟨by simp [hb, ht], by simp [hq, ht], by simp [hm, ht]⟩,
              fun hfe => by rw [hfe] at hel; cases hel⟩
          · have hb : e.beatCost = false := by
              simp [hBeat, hel, heff, hord, not_lt.mpr h.le]
            have hm : e.missedCost = true := by
              simp [hMissed, hel, heff, hord, h]
            have hq : e.metCost = false := by
              simp [hMet, hel, heff, hord, hordS, (ne_of_lt h).symm]
            have ht : e.hitTier = Tier.loss := by
              simp [hTier, hdk, hel, hb, hm]
            refine ⟨by simp [ht, hdk], by simp [ht, hel], by simp [ht, hel],
              fun _ => ⟨by simp [hb, ht], by simp [hq, ht], by simp [hm, ht]⟩,
              fun hfe => by rw [hfe] at hel; cases hel⟩

/-- Witness for C4 at the concrete two-QB fixture. -/
theorem claim_C4_witness :
    eExA ∈ enrichDraftEntries [exA, exB] defaultMetricConfig ∧
    ((eExA.hitTier = Tier.excluded ↔ eExA.isDefenseOrKicker = true) ∧
    (eExA.hitTier = Tier.unranked ↔
      (eExA.isDefenseOrKicker = false ∧ eExA.isRankEligible = false)) ∧
    ((eExA.hitTier = Tier.win ∨ eExA.hitTier = Tier.loss ∨ eExA.hitTier = Tier.neutral)
      ↔ eExA.isRankEligible = true) ∧
    (eExA.isRankEligible = true →
      (eExA.beatCost = true ↔ eExA.hitTier = Tier.win) ∧
      (eExA.metCost = true ↔ eExA.hitTier = Tier.neutral) ∧
      (eExA.missedCost = true ↔ eExA.hitTier = Tier.loss)) ∧
    (eExA.isRankEligible = false →
      eExA.beatCost = false ∧ eExA.metCost = false ∧ eExA.missedCost = false)) :=
  have h1 : eExA ∈ enrichDraftEntries [exA, exB] defaultMetricConfig := by
    rw [enrich_ex]
    exact List.mem_cons_self eExA [eExB]
  ⟨h1, claim_C4 [exA, exB] defaultMetricConfig eExA h1⟩

theorem percentileFromRank_bounds {r p q : ℚ} (hr1 : 1 ≤ r) (hrp : r ≤ p)
    (h : percentileFromRank (some r) (some p) = some q) : 0 ≤ q ∧ q ≤ 1 := by
  unfold percentileFromRank at h
  by_cases h0 : p ≤ 0
  · simp [h0] at h
  · by_cases h1 : p = 1
    · simp only [if_neg h0, if_pos h1, Option.some.injEq] at h
      subst h
      norm_num
    · simp only [if_neg h0, if_neg h1, Option.some.injEq] at h
      subst h
      have hp1 : 1 < p := lt_of_le_of_ne (le_trans hr1 hrp) (Ne.symm h1)
      constructor
      · apply div_nonneg <;> linarith
      · rw [div_le_one (by linarith)]
        linarith

theorem percentileFromRank_pool_one {r : ℚ} :
    percentileFromRank (some r) (some 1) = some 1 := by
  norm_num [percentileFromRank]

theorem eExA_posDraftCount : eExA.posDraftCount = some 2 := by
  rw [eExA, enrichRow_posDraftCount]
  simp [nExA, List.lookup]

theorem eExA_posDraftOrder : eExA.posDraftOrder = some 1 := by
  rw [eExA, enrichRow_posDraftOrder]
  simp [nExA, List.lookup]

/-- C2 (amended): every defined draft percentile lies in [0, 1]; a defined
finish percentile lies in [0, 1] whenever the effective finish rank lies
between 1 and the finish pool size (the cohort draft count under the default
strategy) — outside that range it can leave [0, 1]; a cohort of exactly one
participant yields percentile exactly 1. -/
theorem claim_C2 (src : List Row) (e : EnrichedRow)
    (he : e ∈ enrichDraftEntries src defaultMetricConfig) :
    (∀ p, e.draftPercentileWithinPos = some p → 0 ≤ p ∧ p ≤ 1) ∧
    (∀ p c f, e.finishPercentileWithinPos = some p → e.posDraftCount = some c →
      e.effectiveFinishRank = some f → 1 ≤ f → f ≤ (c : ℚ) → 0 ≤ p ∧ p ≤ 1) ∧
    (e.posDraftCount = some 1 →
      (∀ p, e.draftPercentileWithinPos = some p → p = 1) ∧
      (∀ p, e.finishPercentileWithinPos = some p → p = 1)) := by
  obtain ⟨r, hr, he2⟩ := mem_enrichDraftEntries.mp he
  obtain ⟨j, hj, hget, hlu⟩ := lookup_draft_of_mem (nodup_sourceIndex_normalizeEntries src) hr
  have hord : e.posDraftOrder = some (j + 1) := by
    rw [he2, enrichRow_posDraftOrder, hlu]
    rfl
  have hcnt : e.posDraftCount = some (cohortOf (normalizeEntries src) (cohortKey r)).length := by
    rw [he2, enrichRow_posDraftCount, hlu]
    rfl
  have hbounds := draft_lookup_bounds hlu
  have hdkE : e.isDefenseOrKicker = r.isDefenseOrKicker := by
    rw [he2, enrichRow_isDefenseOrKicker]
  have hD := enrichRow_draftPercentile defaultMetricConfig
    (withPositionDraftOrder (normalizeEntries src)) (withPositionPriceOrder (normalizeEntries src)) r
  rw [← he2] at hD
  rw [← hdkE] at hD
  have hF := enrichRow_finishPercentile defaultMetricConfig
    (withPositionDraftOrder (normalizeEntries src)) (withPositionPriceOrder (normalizeEntries src)) r
  rw [← he2] at hF
  have hstrat : ¬(defaultMetricConfig.finishPoolStrategy = FinishPoolStrategy.cap ∧
      (defaultMetricConfig.positionCaps r.normalizedPosition).isSome) := by
    rintro ⟨hc, -⟩
    cases hc
  rw [if_neg hstrat] at hF
  refine ⟨?_, ?_, ?_⟩
  · intro p hp
    rw [hD] at hp
    cases hdk : e.isDefenseOrKicker with
    | true => rw [hdk] at hp; cases hp
    | false =>
        rw [hdk, hord, hcnt] at hp
        simp only [Bool.not_false, if_pos rfl, Option.map_some'] at hp
        refine percentileFromRank_bounds (r := ((j + 1 : ℕ) : ℚ))
          (p := ((cohortOf (normalizeEntries src) (cohortKey r)).length : ℚ)) ?_ ?_ hp
        · exact_mod_cast hbounds.1
        · exact_mod_cast hbounds.2
  · intro p c f hp hc hf h1f hfc
    rw [hF] at hp
    cases hel : e.isRankEligible with
    | false => rw [hel] at hp; cases hp
    | true =>
        rw [hel, if_pos rfl, hf, hc] at hp
        simp only [Option.map_some'] at hp
        exact percentileFromRank_bounds h1f hfc hp
  · intro h1
    constructor
    · intro p hp
      rw [hD] at hp
      cases hdk : e.isDefenseOrKicker with
      | true => rw [hdk] at hp; cases hp
      | false =>
          rw [hdk, hord, h1] at hp
          simp only [Bool.not_false, if_pos rfl, Option.map_some', Nat.cast_one] at hp
          rw [percentileFromRank_pool_one] at hp
          exact (Option.some.injEq _ _ ▸ hp).symm
    · intro p hp
      rw [hF] at hp
      cases hel : e.isRankEligible with
      | false => rw [hel] at hp; cases hp
      | true =>
          cases heff : e.effectiveFinishRank with
          | none =>
              rw [hel, if_pos rfl, heff, h1] at hp
              simp [percentileFromRank] at hp
          | some f =>
              rw [hel, if_pos rfl, heff, h1] at hp
              simp only [Option.map_some', Nat.cast_one] at hp
              rw [percentileFromRank_pool_one] at hp
              exact (Option.some.injEq _ _ ▸ hp).symm

/-- C2 fails as stated: the first fixture record finished 5th in a two-QB
cohort, so its finish percentile is (2 − 5)/(2 − 1) = −3, outside [0, 1]. -/
theorem claim_C2_counterexample :
    ∃ e ∈ enrichDraftEntries [exA, exB] defaultMetricConfig,
      ∃ p, e.finishPercentileWithinPos = some p ∧ p < 0 := by
  refine ⟨eExA, by rw [enrich_ex]; exact List.mem_cons_self _ _, -3, ?_, by norm_num⟩
  have hF := enrichRow_finishPercentile defaultMetricConfig
    [(0, 1, 2), (1, 2, 2)] [(0, 1, 1)] nExA
  rw [show enrichRow defaultMetricConfig [(0, 1, 2), (1, 2, 2)] [(0, 1, 1)] nExA = eExA
    from rfl] at hF
  rw [hF, eExA_isRankEligible, if_pos rfl, eExA_effectiveFinishRank, eExA_posDraftCount]
  have hs : ¬(defaultMetricConfig.finishPoolStrategy = FinishPoolStrategy.cap ∧
      (defaultMetricConfig.positionCaps nExA.normalizedPosition).isSome) := by
    rintro ⟨hc, -⟩
    cases hc
  rw [if_neg hs]
  norm_num [percentileFromRank]

/-- Witness for C2: the fixture's first record has draft percentile 1, which
the theorem bounds to [0, 1]. -/
theorem claim_C2_witness :
    eExA ∈ enrichDraftEntries [exA, exB] defaultMetricConfig ∧
    eExA.draftPercentileWithinPos = some 1 ∧ (0 ≤ (1 : ℚ) ∧ (1 : ℚ) ≤ 1) := by
  have h1 : eExA ∈ enrichDraftEntries [exA, exB] defaultMetricConfig := by
    rw [enrich_ex]
    exact List.mem_cons_self eExA [eExB]
  have hD := enrichRow_draftPercentile defaultMetricConfig
    [(0, 1, 2), (1, 2, 2)] [(0, 1, 1)] nExA
  rw [show enrichRow defaultMetricConfig [(0, 1, 2), (1, 2, 2)] [(0, 1, 1)] nExA = eExA
    from rfl] at hD
  have h2 : eExA.draftPercentileWithinPos = some 1 := by
    rw [hD, eExA_posDraftOrder, eExA_posDraftCount]
    have hdk : nExA.isDefenseOrKicker = false := rfl
    rw [hdk]
    norm_num [percentileFromRank]
  exact ⟨h1, h2, (claim_C2 [exA, exB] eExA h1).1 1 h2⟩

theorem pipeline_beat_not_met (src : List Row) (cfg : MetricConfig) (e : EnrichedRow)
    (he : e ∈ enrichDraftEntries src cfg) (hb : e.beatCost = true) : e.metCost = false := by
  obtain ⟨r, hr, he2⟩ := mem_enrichDraftEntries.mp he
  have hBeat := enrichRow_beatCost cfg (withPositionDraftOrder (normalizeEntries src))
    (withPositionPriceOrder (normalizeEntries src)) r
  rw [← he2] at hBeat
  have hMet := enrichRow_metCost cfg (withPositionDraftOrder (normalizeEntries src))
    (withPositionPriceOrder (normalizeEntries src)) r
  rw [← he2] at hMet
  rw [hBeat, Bool.and_eq_true] at hb
  have hlt := of_decide_eq_true hb.2
  rw [hMet]
  simp [ne_of_lt hlt]

theorem countP_disjoint_le {α : Type} (l : List α) (p q : α → Bool)
    (h : ∀ x ∈ l, p x = true → q x = false) :
    l.countP p + l.countP q ≤ l.length := by
  induction l with
  | nil => simp
  | cons x xs ih =>
      have ih2 := ih (fun y hy => h y (List.mem_cons_of_mem x hy))
      rw [List.countP_cons, List.countP_cons, List.length_cons]
      cases hp : p x with
      | false =>
          cases hq : q x with
          | false => simp; omega
          | true => simp; omega
      | true =>
          have hq : q x = false := h x (List.mem_cons_self x xs) hp
          simp [hq]
          omega

theorem summarizeGroup_eligiblePicks (rows : List EnrichedRow) :
    (summarizeGroup rows).eligiblePicks = (rows.filter (fun r => r.isRankEligible)).length := rfl

theorem summarizeGroup_beatCostRate (rows : List EnrichedRow) :
    (summarizeGroup rows).beatCostRate
      = (if (rows.filter (fun r => r.isRankEligible)).length = 0 then none
        else some
          ((((rows.filter (fun r => r.isRankEligible)).filter (fun r => r.beatCost)).length : ℚ)
            / ((rows.filter (fun r => r.isRankEligible)).length : ℚ))) := rfl

theorem summarizeGroup_metOrBeatCostRate (rows : List EnrichedRow) :
    (summarizeGroup rows).metOrBeatCostRate
      = (if (rows.filter (fun r => r.isRankEligible)).length = 0 then none
        else some
          (((((rows.filter (fun r => r.isRankEligible)).filter (fun r => r.beatCost)).length
              + ((rows.filter (fun r => r.isRankEligible)).filter (fun r => r.metCost)).length : ℕ) : ℚ)
            / ((rows.filter (fun r => r.isRankEligible)).length : ℚ))) := rfl

/-- C7: for any group of records drawn from the enrichment output, the two
cost rates are a defined absent value when the eligible count is zero, and
otherwise lie in [0, 1]. -/
theorem claim_C7 (src : List Row) (cfg : MetricConfig) (rows : List EnrichedRow)
    (h : ∀ r ∈ rows, r ∈ enrichDraftEntries src cfg) :
    ((summarizeGroup rows).eligiblePicks = 0 →
      (summarizeGroup rows).beatCostRate = none ∧
      (summarizeGroup rows).metOrBeatCostRate = none) ∧
    (∀ q, (summarizeGroup rows).beatCostRate = some q → 0 ≤ q ∧ q ≤ 1) ∧
    (∀ q, (summarizeGroup rows).metOrBeatCostRate = some q → 0 ≤ q ∧ q ≤ 1) := by
  have hzero := summarizeGroup_eligiblePicks rows
  refine ⟨?_, ?_, ?_⟩
  · intro h0
    rw [hzero] at h0
    rw [summarizeGroup_beatCostRate, summarizeGroup_metOrBeatCostRate, if_pos h0, if_pos h0]
    exact ⟨rfl, rfl⟩
  · intro q hq
    rw [summarizeGroup_beatCostRate] at hq
    by_cases h0 : (rows.filter (fun r => r.isRankEligible)).length = 0
    · rw [if_pos h0] at hq
      cases hq
    · rw [if_neg h0, Option.some.injEq] at hq
      subst hq
      have hle : ((rows.filter (fun r => r.isRankEligible)).filter (fun r => r.beatCost)).length
          ≤ (rows.filter (fun r => r.isRankEligible)).length := List.length_filter_le _ _
      have hpos : 0 < ((rows.filter (fun r => r.isRankEligible)).length : ℚ) := by
        exact_mod_cast Nat.pos_of_ne_zero h0
      constructor
      · positivity
      · rw [div_le_one hpos]
        exact_mod_cast hle
  · intro q hq
    rw [summarizeGroup_metOrBeatCostRate] at hq
    by_cases h0 : (rows.filter (fun r => r.isRankEligible)).length = 0
    · rw [if_pos h0] at hq
      cases hq
    · rw [if_neg h0, Option.some.injEq] at hq
      subst hq
      have hsum : ((rows.filter (fun r => r.isRankEligible)).filter (fun r => r.beatCost)).length
            + ((rows.filter (fun r => r.isRankEligible)).filter (fun r => r.metCost)).length
          ≤ (rows.filter (fun r => r.isRankEligible)).length := by
        rw [← List.countP_eq_length_filter, ← List.countP_eq_length_filter]
        refine countP_disjoint_le _ _ _ (fun x hx hbx => ?_)
        exact pipeline_beat_not_met src cfg x (h x (List.mem_of_mem_filter hx)) hbx
      have hpos : 0 < ((rows.filter (fun r => r.isRankEligible)).length : ℚ) := by
        exact_mod_cast Nat.pos_of_ne_zero h0
      constructor
      · positivity
      · rw [div_le_one hpos]
        exact_mod_cast hsum

/-- Witness for C7: the empty group has eligible count 0 and both rates are
the defined absent value. -/
theorem claim_C7_witness :
    (summarizeGroup []).eligiblePicks = 0 ∧
    (summarizeGroup []).beatCostRate = none ∧
    (summarizeGroup []).metOrBeatCostRate = none :=
  have h0 : ∀ r ∈ ([] : List EnrichedRow), r ∈ enrichDraftEntries [] defaultMetricConfig :=
    fun r hr => absurd hr (List.not_mem_nil r)
  ⟨rfl, (claim_C7 [] defaultMetricConfig [] h0).1 rfl⟩

theorem zip_norm_map {f : NormRow → EnrichedRow} (i : ℕ) (src : List Row) :
    ∀ p ∈ src.zip ((normalizeEntriesFrom i src).map f),
      ∃ j, p.2 = f (normalizeRow j p.1) := by
  induction src generalizing i with
  | nil => simp
  | cons row rest ih =>
      intro p hp
      rw [normalizeEntriesFrom, List.map_cons, List.zip_cons_cons] at hp
      rcases List.mem_cons.mp hp with h | h
      · exact ⟨i, by rw [h]⟩
      · exact ih (i + 1) p h

theorem zip_enrich (src : List Row) (cfg : MetricConfig) :
    ∀ p ∈ src.zip (enrichDraftEntries src cfg),
      ∃ j, p.2 = enrichRow cfg (withPositionDraftOrder (normalizeEntries src))
        (withPositionPriceOrder (normalizeEntries src)) (normalizeRow j p.1) := by
  intro p hp
  rw [enrichDraftEntries_eq, normalizeEntries] at hp
  exact zip_norm_map 0 src p hp

/-- C6: the engine is a pure function returning fresh records, and every
source field whose name is neither an explicitly written output property nor
a dropped bookkeeping name is passed through to the enriched object
unchanged. -/
theorem claim_C6 (src : List Row) (cfg : MetricConfig) (k : String)
    (hk1 : k ∉ enrichedFieldNames) (hk2 : k ∉ droppedFieldNames) :
    ∀ p ∈ src.zip (enrichDraftEntries src cfg), enrichedLookup p.2 k = lookupKey p.1 k := by
  intro p hp
  obtain ⟨j, he⟩ := zip_enrich src cfg p hp
  rw [he, enrichedLookup, if_neg hk1, if_neg hk2, enrichRow_row]
  rfl

/-- Witness for C6: the untouched source field "player" of the first fixture
record is passed through verbatim. -/
theorem claim_C6_witness :
    "player" ∉ enrichedFieldNames ∧ "player" ∉ droppedFieldNames ∧
    (exA, eExA) ∈ [exA, exB].zip (enrichDraftEntries [exA, exB] defaultMetricConfig) ∧
    enrichedLookup eExA "player" = lookupKey exA "player" := by
  have hk1 : "player" ∉ enrichedFieldNames := by decide
  have hk2 : "player" ∉ droppedFieldNames := by decide
  have hm : (exA, eExA) ∈ [exA, exB].zip (enrichDraftEntries [exA, exB] defaultMetricConfig) := by
    rw [enrich_ex]
    exact List.mem_cons_self _ _
  exact ⟨hk1, hk2, hm, claim_C6 [exA, exB] defaultMetricConfig "player" hk1 hk2 (exA, eExA) hm⟩

/-- C10: output properties whose names collide with derived fields carry the
engine-computed values (the derived properties are written after the source
spread), and the three bookkeeping names are dropped from the output. -/
theorem claim_C10 (src : List Row) (cfg : MetricConfig) :
    ∀ p ∈ src.zip (enrichDraftEntries src cfg),
      enrichedLookup p.2 "managerValue" = JSVal.str (detectManagerValue p.1) ∧
      enrichedLookup p.2 "finishRank" = jsOfOptInt (parseFinishRank p.1) ∧
      enrichedLookup p.2 "valueRatio" = jsOfOptRat p.2.valueRatio ∧
      enrichedLookup p.2 "hitTier" = JSVal.str (tierString p.2.hitTier) ∧
      (∀ k ∈ droppedFieldNames, enrichedLookup p.2 k = none) := by
  intro p hp
  obtain ⟨j, he⟩ := zip_enrich src cfg p hp
  refine ⟨?_, ?_, ?_, ?_, ?_⟩
  · rw [he, enrichedLookup, if_pos (by decide)]
    rfl
  · rw [he, enrichedLookup, if_pos (by decide)]
    rfl
  · rw [enrichedLookup, if_pos (by decide)]
    rfl
  · rw [enrichedLookup, if_pos (by decide)]
    rfl
  · intro k hk
    have hk1 : k ∉ enrichedFieldNames := by
      simp only [droppedFieldNames, List.mem_cons, List.not_mem_nil, or_false] at hk
      rcases hk with rfl | rfl | rfl
      all_goals decide
    rw [enrichedLookup, if_neg hk1, if_pos hk]

/-- Concrete fixture: a record whose source fields collide with derived
output names and bookkeeping names. -/
def collRow : Row := [("position", .str "QB"), ("year", .num 2020),
  ("overall", .num 1), ("positionrank", .num 2),
  ("managerValue", .str "spoof"), ("finishRank", .num 99), ("__sourceIndex", .num 7)]

/-- Normalized form of `collRow`. -/
def nColl : NormRow :=
  { row := collRow
    sourceIndex := 0
    analysisYear := some 2020
    analysisOverall := some 1
    normalizedPosition := .QB
    isDefenseOrKicker := false
    managerValue := "Unknown Manager"
    playerValue := "Unknown Player"
    finishRank := some 2
    auctionPrice := none }

theorem normalizeEntries_coll : normalizeEntries [collRow] = [nColl] := by
  simp [normalizeEntries, normalizeEntriesFrom, normalizeRow, nColl,
    parseFinishRank, parseAuctionPrice, toFiniteNumber,
    firstPresentValue, FINISH_RANK_FIELD_CANDIDATES, PRICE_FIELD_CANDIDATES,
    MANAGER_FIELD_CANDIDATES, PLAYER_FIELD_CANDIDATES, lookupKey,
    List.lookup, List.findSome?_cons, List.findSome?_nil, jsTrim, jsToUpper,
    normalizePosition, detectManagerValue, detectPlayerValue, isNilOrBlank,
    jsToString, Bool.beq_eq_decide_eq, collRow]

theorem draftOrder_coll : withPositionDraftOrder [nColl] = [(0, 1, 1)] := by
  simp [withPositionDraftOrder, cohortOf, cohortKey, nColl,
    List.dedup_cons_of_mem, List.dedup_cons_of_not_mem, List.dedup_nil,
    List.mergeSort, List.merge, draftLE, List.enum, List.enumFrom,
    Bool.beq_eq_decide_eq]

theorem priceOrder_coll : withPositionPriceOrder [nColl] = [] := by
  simp [withPositionPriceOrder, cohortOf, cohortKey, nColl,
    List.dedup_cons_of_mem, List.dedup_cons_of_not_mem, List.dedup_nil,
    List.mergeSort, List.merge, priceLE, List.enum, List.enumFrom,
    Bool.beq_eq_decide_eq]

/-- The enriched form of `collRow`. -/
def eColl : EnrichedRow := enrichRow defaultMetricConfig [(0, 1, 1)] [] nColl

theorem enrich_coll : enrichDraftEntries [collRow] defaultMetricConfig = [eColl] := by
  rw [enrichDraftEntries_eq, normalizeEntries_coll, draftOrder_coll, priceOrder_coll]
  rfl

/-- Witness for C10: the engine-computed manager value and finish rank win
over the colliding source fields, and the bookkeeping name is dropped. -/
theorem claim_C10_witness :
    enrichedLookup eColl "managerValue" = JSVal.str "Unknown Manager" ∧
    enrichedLookup eColl "finishRank" = JSVal.num 2 ∧
    enrichedLookup eColl "__sourceIndex" = none := by
  have hm : (collRow, eColl) ∈ [collRow].zip (enrichDraftEntries [collRow] defaultMetricConfig) := by
    rw [enrich_coll]
    exact List.mem_cons_self _ _
  have h := claim_C10 [collRow] defaultMetricConfig (collRow, eColl) hm
  refine ⟨?_, ?_, ?_⟩
  · rw [h.1]
    have : detectManagerValue collRow = "Unknown Manager" := by
      simp [detectManagerValue, firstPresentValue, MANAGER_FIELD_CANDIDATES,
        lookupKey, List.lookup, List.findSome?_cons, List.findSome?_nil,
        isNilOrBlank, collRow, Bool.beq_eq_decide_eq]
    rw [this]
  · rw [h.2.1]
    have : parseFinishRank collRow = some 2 := by
      have hr : nColl.finishRank = some 2 := rfl
      have := congrArg (fun l => (l.headD nColl).finishRank) normalizeEntries_coll
      simpa [normalizeEntries, normalizeEntriesFrom, normalizeRow] using this
    rw [this]
    rfl
  · exact h.2.2.2.2 "__sourceIndex" (by decide)

theorem cohort_orders_perm {rows : List NormRow}
    (hnd : (rows.map (fun r => r.sourceIndex)).Nodup) (k : Option ℤ × Pos) :
    List.Perm
      ((cohortOf rows k).map
        (fun r => ((withPositionDraftOrder rows).lookup r.sourceIndex).map Prod.fst))
      ((List.range (cohortOf rows k).length).map (fun j => some (j + 1))) := by
  have hlen : ((cohortOf rows k).mergeSort draftLE).length = (cohortOf rows k).length :=
    (List.mergeSort_perm _ _).length_eq
  have hmap : ((cohortOf rows k).mergeSort draftLE).map
        (fun r => ((withPositionDraftOrder rows).lookup r.sourceIndex).map Prod.fst)
      = (List.range (cohortOf rows k).length).map (fun j => some (j + 1)) := by
    apply List.ext_get
    · simp [hlen]
    · intro i h1 h2
      rw [List.get_map, List.get_map]
      have hi : i < ((cohortOf rows k).mergeSort draftLE).length := by
        simpa using h1
      rw [lookup_draft_of_get hnd hi]
      simp [List.get_range]
  have hperm := ((List.mergeSort_perm (cohortOf rows k) draftLE).symm).map
    (fun r => ((withPositionDraftOrder rows).lookup r.sourceIndex).map Prod.fst)
  rw [hmap] at hperm
  exact hperm

theorem cohort_orders_perm_price {rows : List NormRow}
    (hnd : (rows.map (fun r => r.sourceIndex)).Nodup) (k : Option ℤ × Pos) :
    List.Perm
      (((cohortOf rows k).filter (fun r => r.auctionPrice.isSome)).map
        (fun r => ((withPositionPriceOrder rows).lookup r.sourceIndex).map Prod.fst))
      ((List.range ((cohortOf rows k).filter (fun r => r.auctionPrice.isSome)).length).map
        (fun j => some (j + 1))) := by
  have hlen : ((((cohortOf rows k).filter (fun r => r.auctionPrice.isSome)).mergeSort priceLE)).length
      = ((cohortOf rows k).filter (fun r => r.auctionPrice.isSome)).length :=
    (List.mergeSort_perm _ _).length_eq
  have hmap : (((cohortOf rows k).filter (fun r => r.auctionPrice.isSome)).mergeSort priceLE).map
        (fun r => ((withPositionPriceOrder rows).lookup r.sourceIndex).map Prod.fst)
      = (List.range ((cohortOf rows k).filter (fun r => r.auctionPrice.isSome)).length).map
          (fun j => some (j + 1)) := by
    apply List.ext_get
    · simp [hlen]
    · intro i h1 h2
      rw [List.get_map, List.get_map]
      have hi : i < (((cohortOf rows k).filter
          (fun r => r.auctionPrice.isSome)).mergeSort priceLE).length := by
        simpa using h1
      rw [lookup_price_of_get hnd hi]
      simp [List.get_range]
  have hperm := ((List.mergeSort_perm
      ((cohortOf rows k).filter (fun r => r.auctionPrice.isSome)) priceLE).symm).map
    (fun r => ((withPositionPriceOrder rows).lookup r.sourceIndex).map Prod.fst)
  rw [hmap] at hperm
  exact hperm

theorem cohort_counts_draft {rows : List NormRow}
    (hnd : (rows.map (fun r => r.sourceIndex)).Nodup) (k : Option ℤ × Pos) :
    ∀ r ∈ cohortOf rows k,
      ((withPositionDraftOrder rows).lookup r.sourceIndex).map Prod.snd
        = some (cohortOf rows k).length := by
  intro r hr
  have hkey := (mem_of_mem_cohortOf hr).2
  obtain ⟨j, hj, hget, hlu⟩ := lookup_draft_of_mem hnd (mem_of_mem_cohortOf hr).1
  rw [hkey] at hlu
  rw [hlu]
  rfl

theorem cohort_counts_price {rows : List NormRow}
    (hnd : (rows.map (fun r => r.sourceIndex)).Nodup) (k : Option ℤ × Pos) :
    ∀ r ∈ (cohortOf rows k).filter (fun r => r.auctionPrice.isSome),
      ((withPositionPriceOrder rows).lookup r.sourceIndex).map Prod.snd
        = some ((cohortOf rows k).filter (fun r => r.auctionPrice.isSome)).length := by
  intro r hr
  have hp : r.auctionPrice.isSome = true := by
    simpa using (List.mem_filter.mp hr).2
  have hg := (List.mem_filter.mp hr).1
  have hkey := (mem_of_mem_cohortOf hg).2
  obtain ⟨j, hj, hget, hlu⟩ := lookup_price_of_mem hnd (mem_of_mem_cohortOf hg).1 hp
  rw [hkey] at hlu
  rw [hlu]
  rfl

theorem zip_enrich_eq_map (src : List Row) (cfg : MetricConfig) :
    (normalizeEntries src).zip (enrichDraftEntries src cfg)
      = (normalizeEntries src).map (fun r => (r,
          enrichRow cfg (withPositionDraftOrder (normalizeEntries src))
            (withPositionPriceOrder (normalizeEntries src)) r)) := by
  rw [enrichDraftEntries_eq]
  have h := List.zip_map' id (enrichRow cfg (withPositionDraftOrder (normalizeEntries src))
    (withPositionPriceOrder (normalizeEntries src))) (normalizeEntries src)
  rw [List.map_id] at h
  simpa using h

/-- C9: every enriched record carries a defined positional draft order and
count; within each (year, position) cohort the draft orders are exactly
1..count (as a multiset), all members agree on the count, and likewise the
price orders over the cohort's priced records are exactly 1..priceCount. -/
theorem claim_C9 (src : List Row) (cfg : MetricConfig) :
    (∀ e ∈ enrichDraftEntries src cfg, e.posDraftOrder.isSome ∧ e.posDraftCount.isSome) ∧
    (∀ k : Option ℤ × Pos,
      List.Perm
        ((((normalizeEntries src).zip (enrichDraftEntries src cfg)).filter
            (fun p => decide (cohortKey p.1 = k))).map (fun p => p.2.posDraftOrder))
        ((List.range (cohortOf (normalizeEntries src) k).length).map (fun j => some (j + 1))) ∧
      (∀ p ∈ ((normalizeEntries src).zip (enrichDraftEntries src cfg)).filter
          (fun p => decide (cohortKey p.1 = k)),
        p.2.posDraftCount = some (cohortOf (normalizeEntries src) k).length) ∧
      List.Perm
        ((((normalizeEntries src).zip (enrichDraftEntries src cfg)).filter
            (fun p => decide (cohortKey p.1 = k) && p.1.auctionPrice.isSome)).map
          (fun p => p.2.posPriceOrder))
        ((List.range ((cohortOf (normalizeEntries src) k).filter
            (fun r => r.auctionPrice.isSome)).length).map (fun j => some (j + 1))) ∧
      (∀ p ∈ ((normalizeEntries src).zip (enrichDraftEntries src cfg)).filter
          (fun p => decide (cohortKey p.1 = k) && p.1.auctionPrice.isSome),
        p.2.posPriceCount = some ((cohortOf (normalizeEntries src) k).filter
          (fun r => r.auctionPrice.isSome)).length)) := by
  have hnd := nodup_sourceIndex_normalizeEntries src
  constructor
  · intro e he
    obtain ⟨r, hr, rfl⟩ := mem_enrichDraftEntries.mp he
    obtain ⟨j, hj, hget, hlu⟩ := lookup_draft_of_mem hnd hr
    constructor
    · rw [enrichRow_posDraftOrder, hlu]
      rfl
    · rw [enrichRow_posDraftCount, hlu]
      rfl
  · intro k
    have hzip := zip_enrich_eq_map src cfg
    have hfil : ((normalizeEntries src).zip (enrichDraftEntries src cfg)).filter
          (fun p => decide (cohortKey p.1 = k))
        = (cohortOf (normalizeEntries src) k).map (fun r => (r,
            enrichRow cfg (withPositionDraftOrder (normalizeEntries src))
              (withPositionPriceOrder (normalizeEntries src)) r)) := by
      rw [hzip, List.filter_map]
      rfl
    have hfilP : ((normalizeEntries src).zip (enrichDraftEntries src cfg)).filter
          (fun p => decide (cohortKey p.1 = k) && p.1.auctionPrice.isSome)
        = ((cohortOf (normalizeEntries src) k).filter (fun r => r.auctionPrice.isSome)).map
            (fun r => (r,
              enrichRow cfg (withPositionDraftOrder (normalizeEntries src))
                (withPositionPriceOrder (normalizeEntries src)) r)) := by
      rw [hzip, List.filter_map]
      have hswap : (cohortOf (normalizeEntries src) k).filter (fun r => r.auctionPrice.isSome)
          = (normalizeEntries src).filter
              (fun r => decide (cohortKey r = k) && r.auctionPrice.isSome) := by
        rw [cohortOf, List.filter_filter]
        exact List.filter_congr (fun x hx => Bool.and_comm _ _)
      rw [hswap]
      rfl
    refine ⟨?_, ?_, ?_, ?_⟩
    · rw [hfil, List.map_map]
      have hpt : ((cohortOf (normalizeEntries src) k).map
            ((fun p => p.2.posDraftOrder) ∘ (fun r => (r,
              enrichRow cfg (withPositionDraftOrder (normalizeEntries src))
                (withPositionPriceOrder (normalizeEntries src)) r))))
          = (cohortOf (normalizeEntries src) k).map
              (fun r => ((withPositionDraftOrder (normalizeEntries src)).lookup
                r.sourceIndex).map Prod.fst) :=
        List.map_congr_left (fun r hr => enrichRow_posDraftOrder cfg _ _ r)
      rw [hpt]
      exact cohort_orders_perm hnd k
    · intro p hp
      rw [hfil] at hp
      obtain ⟨r, hr, rfl⟩ := List.mem_map.mp hp
      have := cohort_counts_draft hnd k r hr
      rw [enrichRow_posDraftCount]
      exact this
    · rw [hfilP, List.map_map]
      have hpt : (((cohortOf (normalizeEntries src) k).filter
            (fun r => r.auctionPrice.isSome)).map
            ((fun p => p.2.posPriceOrder) ∘ (fun r => (r,
              enrichRow cfg (withPositionDraftOrder (normalizeEntries src))
                (withPositionPriceOrder (normalizeEntries src)) r))))
          = ((cohortOf (normalizeEntries src) k).filter
              (fun r => r.auctionPrice.isSome)).map
              (fun r => ((withPositionPriceOrder (normalizeEntries src)).lookup
                r.sourceIndex).map Prod.fst) :=
        List.map_congr_left (fun r hr => enrichRow_posPriceOrder cfg _ _ r)
      rw [hpt]
      exact cohort_orders_perm_price hnd k
    · intro p hp
      rw [hfilP] at hp
      obtain ⟨r, hr, rfl⟩ := List.mem_map.mp hp
      have := cohort_counts_price hnd k r hr
      rw [enrichRow_posPriceCount]
      exact this

/-- Witness for C9 at the concrete two-QB fixture. -/
theorem claim_C9_witness :
    eExA ∈ enrichDraftEntries [exA, exB] defaultMetricConfig ∧
    eExA.posDraftOrder.isSome ∧ eExA.posDraftCount.isSome :=
  have h1 : eExA ∈ enrichDraftEntries [exA, exB] defaultMetricConfig := by
    rw [enrich_ex]
    exact List.mem_cons_self eExA [eExB]
  ⟨h1, (claim_C9 [exA, exB] defaultMetricConfig).1 eExA h1⟩

theorem draftLE_eq_nn {a b : NormRow} (h1 : a.analysisOverall = none)
    (h2 : b.analysisOverall = none) :
    draftLE a b = decide (a.sourceIndex ≤ b.sourceIndex) := by
  unfold draftLE
  rw [h1, h2]

theorem draftLE_eq_ns {a b : NormRow} {q : ℚ} (h1 : a.analysisOverall = none)
    (h2 : b.analysisOverall = some q) : draftLE a b = false := by
  unfold draftLE
  rw [h1, h2]

theorem draftLE_eq_sn {a b : NormRow} {q : ℚ} (h1 : a.analysisOverall = some q)
    (h2 : b.analysisOverall = none) : draftLE a b = true := by
  unfold draftLE
  rw [h1, h2]

theorem draftLE_eq_ss {a b : NormRow} {ao bo : ℚ} (h1 : a.analysisOverall = some ao)
    (h2 : b.analysisOverall = some bo) :
    draftLE a b = (if ao = bo then decide (a.sourceIndex ≤ b.sourceIndex)
      else decide (ao < bo)) := by
  unfold draftLE
  rw [h1, h2]

theorem draftLE_total (a b : NormRow) : (draftLE a b || draftLE b a) = true := by
  cases ha : a.analysisOverall with
  | none =>
      cases hb : b.analysisOverall with
      | none =>
          rw [draftLE_eq_nn ha hb, draftLE_eq_nn hb ha]
          simp
          omega
      | some bo => rw [draftLE_eq_sn hb ha]; simp
  | some ao =>
      cases hb : b.analysisOverall with
      | none => rw [draftLE_eq_sn ha hb]; simp
      | some bo =>
          rw [draftLE_eq_ss ha hb, draftLE_eq_ss hb ha]
          by_cases he : ao = bo
          · subst he
            simp
            omega
          · simp [he, Ne.symm he]

theorem draftLE_trans (a b c : NormRow) (hab : draftLE a b = true) (hbc : draftLE b c = true) :
    draftLE a c = true := by
  cases ha : a.analysisOverall with
  | none =>
      cases hb : b.analysisOverall with
      | none =>
          cases hc : c.analysisOverall with
          | none =>
              rw [draftLE_eq_nn ha hb] at hab
              rw [draftLE_eq_nn hb hc] at hbc
              rw [draftLE_eq_nn ha hc]
              simp at hab hbc ⊢
              omega
          | some co =>
              rw [draftLE_eq_ns hb hc] at hbc
              cases hbc
      | some bo =>
          rw [draftLE_eq_ns ha hb] at hab
          cases hab
  | some ao =>
      cases hc : c.analysisOverall with
      | none => rw [draftLE_eq_sn ha hc]
      | some co =>
          cases hb : b.analysisOverall with
          | none =>
              rw [draftLE_eq_ns hb hc] at hbc
              cases hbc
          | some bo =>
              rw [draftLE_eq_ss ha hb] at hab
              rw [draftLE_eq_ss hb hc] at hbc
              rw [draftLE_eq_ss ha hc]
              by_cases heab : ao = bo
              · subst heab
                by_cases hebc : ao = co
                · subst hebc
                  simp at hab hbc ⊢
                  omega
                · simp [hebc] at hbc ⊢
                  exact hbc
              · simp [heab] at hab
                by_cases hebc : bo = co
                · subst hebc
                  simp [heab]
                  exact hab
                · simp [hebc] at hbc
                  have hac : ao < co := lt_trans hab hbc
                  simp [ne_of_lt hac]
                  exact hac

/-- C8: under the default configuration, a non-K/DST record with neither an
overall pick nor a finish rank, in a cohort whose other members all have a
known overall pick, sorts last (draft order = cohort size N), is imputed
finish rank N, and lands exactly on neutral (posRankDelta 0, metCost). -/
theorem claim_C8 (src : List Row) (i : ℕ)
    (hi : i < (normalizeEntries src).length)
    (hov : ((normalizeEntries src).get ⟨i, hi⟩).analysisOverall = none)
    (hfr : ((normalizeEntries src).get ⟨i, hi⟩).finishRank = none)
    (hdk : ((normalizeEntries src).get ⟨i, hi⟩).isDefenseOrKicker = false)
    (hothers : ∀ x ∈ normalizeEntries src,
      cohortKey x = cohortKey ((normalizeEntries src).get ⟨i, hi⟩) →
      x ≠ (normalizeEntries src).get ⟨i, hi⟩ → x.analysisOverall ≠ none)
    (hi2 : i < (enrichDraftEntries src defaultMetricConfig).length) :
    ((enrichDraftEntries src defaultMetricConfig).get ⟨i, hi2⟩).posDraftOrder
      = some (cohortOf (normalizeEntries src)
          (cohortKey ((normalizeEntries src).get ⟨i, hi⟩))).length ∧
    ((enrichDraftEntries src defaultMetricConfig).get ⟨i, hi2⟩).posDraftCount
      = some (cohortOf (normalizeEntries src)
          (cohortKey ((normalizeEntries src).get ⟨i, hi⟩))).length ∧
    ((enrichDraftEntries src defaultMetricConfig).get ⟨i, hi2⟩).imputedFinishRank
      = some (((cohortOf (normalizeEntries src)
          (cohortKey ((normalizeEntries src).get ⟨i, hi⟩))).length : ℕ) : ℚ) ∧
    ((enrichDraftEntries src defaultMetricConfig).get ⟨i, hi2⟩).effectiveFinishRank
      = some (((cohortOf (normalizeEntries src)
          (cohortKey ((normalizeEntries src).get ⟨i, hi⟩))).length : ℕ) : ℚ) ∧
    ((enrichDraftEntries src defaultMetricConfig).get ⟨i, hi2⟩).posRankDelta = some 0 ∧
    ((enrichDraftEntries src defaultMetricConfig).get ⟨i, hi2⟩).metCost = true ∧
    ((enrichDraftEntries src defaultMetricConfig).get ⟨i, hi2⟩).hitTier = Tier.neutral := by
  set N := normalizeEntries src with hN
  set r := N.get ⟨i, hi⟩ with hrdef
  have hr : r ∈ N := N.get_mem i hi
  have hnd : (N.map (fun x => x.sourceIndex)).Nodup := nodup_sourceIndex_normalizeEntries src
  obtain ⟨j, hj, hget, hlu⟩ := lookup_draft_of_mem hnd hr
  have hlen : ((cohortOf N (cohortKey r)).mergeSort draftLE).length
      = (cohortOf N (cohortKey r)).length := (List.mergeSort_perm _ _).length_eq
  have hpair : ((cohortOf N (cohortKey r)).mergeSort draftLE).Pairwise
      (fun a b => draftLE a b = true) := by
    have := List.sorted_mergeSort draftLE_trans draftLE_total (cohortOf N (cohortKey r))
    simpa using this
  have hjlast : j + 1 = ((cohortOf N (cohortKey r)).mergeSort draftLE).length := by
    by_contra hne
    have hlt : j + 1 < ((cohortOf N (cohortKey r)).mergeSort draftLE).length :=
      lt_of_le_of_ne hj hne
    set y := ((cohortOf N (cohortKey r)).mergeSort draftLE).get ⟨j + 1, hlt⟩ with hydef
    have hle : draftLE r y = true := by
      have hp := List.pairwise_iff_getElem.mp hpair j (j + 1)
        (lt_trans (Nat.lt_succ_self j) hlt) hlt (Nat.lt_succ_self j)
      have hp2 : draftLE (((cohortOf N (cohortKey r)).mergeSort draftLE).get ⟨j, hj⟩)
          (((cohortOf N (cohortKey r)).mergeSort draftLE).get ⟨j + 1, hlt⟩) = true := hp
      rw [hget] at hp2
      exact hp2
    have hymem : y ∈ (cohortOf N (cohortKey r)).mergeSort draftLE :=
      ((cohortOf N (cohortKey r)).mergeSort draftLE).get_mem _ _
    have hyg : y ∈ cohortOf N (cohortKey r) := (List.mergeSort_perm _ _).subset hymem
    have hyN : y ∈ N := (mem_of_mem_cohortOf hyg).1
    have hyk : cohortKey y = cohortKey r := (mem_of_mem_cohortOf hyg).2
    have hyne : y ≠ r := by
      intro he
      have hndS : ((cohortOf N (cohortKey r)).mergeSort draftLE).Nodup :=
        (nodup_idx_mergeSort draftLE (nodup_idx_cohortOf hnd _)).of_map _
      have heq : ((cohortOf N (cohortKey r)).mergeSort draftLE).get ⟨j + 1, hlt⟩
          = ((cohortOf N (cohortKey r)).mergeSort draftLE).get ⟨j, hj⟩ := by
        rw [hget, ← hydef, he]
      have := (List.Nodup.get_inj_iff hndS).mp heq
      simp at this
    cases hyov : y.analysisOverall with
    | none => exact hothers y hyN hyk hyne hyov
    | some q =>
        rw [draftLE_eq_ns hov hyov] at hle
        cases hle
  have hj1 : j + 1 = (cohortOf N (cohortKey r)).length := hjlast.trans hlen
  have hlu2 : (withPositionDraftOrder N).lookup r.sourceIndex
      = some ((cohortOf N (cohortKey r)).length, (cohortOf N (cohortKey r)).length) := by
    refine hlu.trans ?_
    rw [hj1]
  have he : (enrichDraftEntries src defaultMetricConfig).get ⟨i, hi2⟩
      = enrichRow defaultMetricConfig (withPositionDraftOrder N) (withPositionPriceOrder N) r := by
    have h0 : enrichDraftEntries src defaultMetricConfig
        = N.map (enrichRow defaultMetricConfig (withPositionDraftOrder N)
            (withPositionPriceOrder N)) := rfl
    have h1 := List.get_of_eq h0 ⟨i, hi2⟩
    rw [h1, List.get_map]
  have hord : ((enrichDraftEntries src defaultMetricConfig).get ⟨i, hi2⟩).posDraftOrder
      = some (cohortOf N (cohortKey r)).length := by
    rw [he, enrichRow_posDraftOrder, hlu2]
    rfl
  have hcnt : ((enrichDraftEntries src defaultMetricConfig).get ⟨i, hi2⟩).posDraftCount
      = some (cohortOf N (cohortKey r)).length := by
    rw [he, enrichRow_posDraftCount, hlu2]
    rfl
  have hstrat : ¬(defaultMetricConfig.finishPoolStrategy = FinishPoolStrategy.cap ∧
      (defaultMetricConfig.positionCaps r.normalizedPosition).isSome) := by
    rintro ⟨hc, -⟩
    cases hc
  have himp : ((enrichDraftEntries src defaultMetricConfig).get ⟨i, hi2⟩).imputedFinishRank
      = some (((cohortOf N (cohortKey r)).length : ℕ) : ℚ) := by
    rw [he, enrichRow_imputedFinishRank, if_neg hstrat]
    rw [← he, hcnt]
    have hdk2 : r.isDefenseOrKicker = false := hdk
    have hfr2 : r.finishRank = none := hfr
    rw [hdk2, hfr2]
    simp
  have heff : ((enrichDraftEntries src defaultMetricConfig).get ⟨i, hi2⟩).effectiveFinishRank
      = some (((cohortOf N (cohortKey r)).length : ℕ) : ℚ) := by
    rw [he, enrichRow_effectiveFinishRank]
    have hfr2 : r.finishRank = none := hfr
    rw [hfr2, ← he]
    exact himp
  have hel : ((enrichDraftEntries src defaultMetricConfig).get ⟨i, hi2⟩).isRankEligible = true := by
    rw [he, enrichRow_isRankEligible]
    have hdk2 : r.isDefenseOrKicker = false := hdk
    rw [hdk2, ← he, heff]
    rfl
  have hdelta : ((enrichDraftEntries src defaultMetricConfig).get ⟨i, hi2⟩).posRankDelta
      = some 0 := by
    rw [he, enrichRow_posRankDelta, ← he, hel, if_pos rfl, hord, heff]
    simp
  have hmet : ((enrichDraftEntries src defaultMetricConfig).get ⟨i, hi2⟩).metCost = true := by
    rw [he, enrichRow_metCost, ← he, hel, hord, heff]
    simp
  have hbeat : ((enrichDraftEntries src defaultMetricConfig).get ⟨i, hi2⟩).beatCost = false := by
    rw [he, enrichRow_beatCost, ← he, hel, hord, heff]
    simp
  have hmiss : ((enrichDraftEntries src defaultMetricConfig).get ⟨i, hi2⟩).missedCost = false := by
    rw [he, enrichRow_missedCost, ← he, hel, hord, heff]
    simp
  have htier : ((enrichDraftEntries src defaultMetricConfig).get ⟨i, hi2⟩).hitTier
      = Tier.neutral := by
    rw [he, enrichRow_hitTier, ← he]
    have hdk2 : r.isDefenseOrKicker = false := hdk
    rw [hdk2, hel, hbeat, hmiss]
    rfl
  exact ⟨hord, hcnt, himp, heff, hdelta, hmet, htier⟩

/-- Concrete fixture: a QB record with neither an overall pick nor a finish
rank. -/
def emptyRow : Row := [("position", .str "QB"), ("year", .num 2020)]

/-- Normalized form of `emptyRow` at source index 1. -/
def nEmpty : NormRow :=
  { row := emptyRow
    sourceIndex := 1
    analysisYear := some 2020
    analysisOverall := none
    normalizedPosition := .QB
    isDefenseOrKicker := false
    managerValue := "Unknown Manager"
    playerValue := "Unknown Player"
    finishRank := none
    auctionPrice := none }

theorem normalizeEntries_c8 : normalizeEntries [exA, emptyRow] = [nExA, nEmpty] := by
  simp [normalizeEntries, normalizeEntriesFrom, normalizeRow, nExA, nEmpty,
    parseFinishRank, parseAuctionPrice, toFiniteNumber,
    firstPresentValue, FINISH_RANK_FIELD_CANDIDATES, PRICE_FIELD_CANDIDATES,
    MANAGER_FIELD_CANDIDATES, PLAYER_FIELD_CANDIDATES, lookupKey,
    List.lookup, List.findSome?_cons, List.findSome?_nil, jsTrim, jsToUpper,
    normalizePosition, detectManagerValue, detectPlayerValue, isNilOrBlank,
    jsToString, Bool.beq_eq_decide_eq, exA, emptyRow]

theorem c8w_hi : 1 < (normalizeEntries [exA, emptyRow]).length := by
  rw [normalizeEntries_c8]
  decide

theorem c8wlen : 1 < (enrichDraftEntries [exA, emptyRow] defaultMetricConfig).length := by
  rw [enrichDraftEntries_eq, List.length_map, normalizeEntries_c8]
  decide

theorem c8w_get : (normalizeEntries [exA, emptyRow]).get ⟨1, c8w_hi⟩ = nEmpty :=
  (List.get_of_eq normalizeEntries_c8 ⟨1, c8w_hi⟩).trans rfl

theorem c8w_cohort : (cohortOf (normalizeEntries [exA, emptyRow])
    (cohortKey ((normalizeEntries [exA, emptyRow]).get ⟨1, c8w_hi⟩))).length = 2 := by
  rw [c8w_get, normalizeEntries_c8]
  simp [cohortOf, cohortKey, nExA, nEmpty]

/-- Witness for C8: in a two-QB cohort whose other member has overall pick
10, the empty record gets draft order 2, imputed finish rank 2, delta 0 and
the neutral tier. -/
theorem claim_C8_witness :
    ((enrichDraftEntries [exA, emptyRow] defaultMetricConfig).get ⟨1, c8wlen⟩).posDraftOrder
      = some 2 ∧
    ((enrichDraftEntries [exA, emptyRow] defaultMetricConfig).get ⟨1, c8wlen⟩).imputedFinishRank
      = some 2 ∧
    ((enrichDraftEntries [exA, emptyRow] defaultMetricConfig).get ⟨1, c8wlen⟩).posRankDelta
      = some 0 ∧
    ((enrichDraftEntries [exA, emptyRow] defaultMetricConfig).get ⟨1, c8wlen⟩).metCost = true ∧
    ((enrichDraftEntries [exA, emptyRow] defaultMetricConfig).get ⟨1, c8wlen⟩).hitTier
      = Tier.neutral := by
  have hov : ((normalizeEntries [exA, emptyRow]).get ⟨1, c8w_hi⟩).analysisOverall = none := by
    rw [c8w_get]
    rfl
  have hfr : ((normalizeEntries [exA, emptyRow]).get ⟨1, c8w_hi⟩).finishRank = none := by
    rw [c8w_get]
    rfl
  have hdk : ((normalizeEntries [exA, emptyRow]).get ⟨1, c8w_hi⟩).isDefenseOrKicker = false := by
    rw [c8w_get]
    rfl
  have hothers : ∀ x ∈ normalizeEntries [exA, emptyRow],
      cohortKey x = cohortKey ((normalizeEntries [exA, emptyRow]).get ⟨1, c8w_hi⟩) →
      x ≠ (normalizeEntries [exA, emptyRow]).get ⟨1, c8w_hi⟩ → x.analysisOverall ≠ none := by
    intro x hx hk hne
    rw [normalizeEntries_c8] at hx
    rw [c8w_get] at hne
    rcases List.mem_cons.mp hx with h | h
    · subst h
      intro hcontra
      cases hcontra
    · rw [List.mem_singleton] at h
      exact absurd h hne
  have h := claim_C8 [exA, emptyRow] 1 c8w_hi hov hfr hdk hothers c8wlen
  rw [c8w_cohort] at h
  exact ⟨h.1, by exact_mod_cast h.2.2.1, h.2.2.2.2.1, h.2.2.2.2.2.1, h.2.2.2.2.2.2⟩
